import Mathlib

/-!
Verification of the nuantong_data heat-monitoring pipeline.

This file gives a shallow embedding of the data-reconciliation and
temporal-resampling core of the repository:

* `merged_data_module.py` (`HeatDataMerger`): schema unification of the two
  source categories (低环 / 二网) onto the fixed 27-column canonical schema,
  and the merge orchestrator.
* `chart_generator.py` (`ChartGenerator._resample_data`): grouped hourly
  resampling with reindexing onto the global hourly timeline.
* `chart_generator.py` (`smooth_data_with_confidence`): centered moving
  average with a parametric confidence band.

Tables are modelled column-major (a pandas `DataFrame` is a sequence of named
columns of equal length).  Numeric values are modelled as exact rationals; a
missing value (`NaN`/`NaT`/`None`) is `Option.none` (for measurement series)
or the `Cell.null` constructor (for canonical-table cells).  Timestamps are
minutes since an epoch.  Where the Python relies on pandas/numpy library
semantics, the embedding follows the documented behaviour of those library
functions; each such place is marked in a comment.
-/

/-- A cell of a raw or canonical table: missing, a string, a number, or an
instant (minutes since the epoch).  String-typed timestamps that pandas can
parse are modelled as already-parsed `time` cells; values that fail parsing
are any non-`time` cell. -/
inductive Cell where
  | null
  | str (s : String)
  | num (q : ℚ)
  | time (t : ℕ)
deriving DecidableEq

/-- A column-major table: a row count and an ordered list of named columns.
`pandas.DataFrame` keeps one column order shared by all rows. -/
structure Table where
  nRows : ℕ
  cols : List (String × List Cell)
deriving DecidableEq

/-- Well-formedness: every column has exactly `nRows` cells. -/
def Table.WF (t : Table) : Prop := ∀ p ∈ t.cols, (p.2 : List Cell).length = t.nRows

instance (t : Table) : Decidable t.WF :=
  inferInstanceAs (Decidable (∀ p ∈ t.cols, (p.2 : List Cell).length = t.nRows))

instance {ε α : Type} [DecidableEq ε] [DecidableEq α] : DecidableEq (Except ε α)
  | .ok x, .ok y =>
    if h : x = y then isTrue (by rw [h]) else isFalse (fun hc => h (by cases hc; rfl))
  | .error x, .error y =>
    if h : x = y then isTrue (by rw [h]) else isFalse (fun hc => h (by cases hc; rfl))
  | .ok _, .error _ => isFalse (fun hc => Except.noConfusion hc)
  | .error _, .ok _ => isFalse (fun hc => Except.noConfusion hc)

/-- The list of column names, in order (`df.columns`). -/
def colNames (t : Table) : List String := t.cols.map Prod.fst

/-- `c in df.columns`. -/
def hasCol (t : Table) (c : String) : Bool := t.cols.any (fun p => p.1 == c)

/-- The column named `c`, if present (first occurrence, as in pandas with
unique column labels). -/
def getCol? (t : Table) (c : String) : Option (List Cell) :=
  (t.cols.find? (fun p => p.1 == c)).map Prod.snd

/-- The column named `c`, defaulting to an all-null column of the right
length when absent. -/
def getColD (t : Table) (c : String) : List Cell :=
  (getCol? t c).getD (List.replicate t.nRows Cell.null)

/-- `df[c] = v` for a whole-column value `v`: overwrite the column in place
if the name exists, otherwise append a new column at the end (pandas
column-assignment semantics). -/
def setCol (t : Table) (c : String) (v : List Cell) : Table :=
  if hasCol t c then
    ⟨t.nRows, t.cols.map (fun p => if p.1 == c then (p.1, v) else p)⟩
  else
    ⟨t.nRows, t.cols ++ [(c, v)]⟩

/-- `df[c] = scalar`: broadcast a single cell over the whole column. -/
def setColConst (t : Table) (c : String) (cell : Cell) : Table :=
  setCol t c (List.replicate t.nRows cell)

/-- `df[c] = f(df[c])` applied element-wise to an existing column (the
pipeline only maps columns that are present; the default branch pads with
nulls and is never reached there). -/
def mapCol (t : Table) (c : String) (f : Cell → Cell) : Table :=
  setCol t c (((getCol? t c).getD (List.replicate t.nRows Cell.null)).map f)

/-- `df[sel]`: select/reorder columns by name.  In the pipeline `sel` is
always a subset of the present columns; the null default is never reached
there (pandas would raise a `KeyError`). -/
def selectCols (t : Table) (sel : List String) : Table :=
  ⟨t.nRows, sel.map (fun c => (c, getColD t c))⟩

/-- The fixed canonical column schema (`HeatDataMerger.standard_columns`,
27 columns, in order). -/
def standardColumns : List String :=
  ["序号", "管理单位", "管理所", "换热站", "测点名称", "位置", "楼层", "设备标识",
   "数据时间", "室温温度(℃)", "报警状态", "源文件", "数据类型", "环路",
   "计划热量(GJ)", "瞬时热量(GJ/H)", "热量(GJ)", "瞬时流量(T/H)",
   "单位流量(T/万㎡)", "阀门开度(%)", "设定(℃)", "反馈(℃)", "供温(℃)",
   "回温(℃)", "供压(Mpa)", "回压(Mpa)", "日期"]

/-- Columns required of a 低环 (low-loop) source file
(`process_low_cycle_data.required_columns`). -/
def requiredLowColumns : List String :=
  ["序号", "管理单位", "管理所", "换热站", "测点名称",
   "位置", "楼层", "设备标识", "数据时间", "室温温度(℃)", "报警状态"]

/-- Columns required of a 二网 (secondary-network) source file
(`process_two_network_data.required_columns`). -/
def requiredTwoColumns : List String :=
  ["环路", "计划热量(GJ)", "瞬时热量(GJ/H)", "热量(GJ)",
   "瞬时流量(T/H)", "单位流量(T/万㎡)", "阀门开度(%)",
   "设定(℃)", "反馈(℃)", "供温(℃)", "回温(℃)",
   "供压(Mpa)", "回压(Mpa)", "数据时间"]

/-- The structured content of the exceptions raised by `HeatDataMerger`
(the spec's `SchemaError` / `NoMatchingFilesError`): a missing required
column (naming the source kind and the column), an un-extractable file-name
date (naming the file), or an empty file category (naming the kind). -/
inductive MergeError where
  | missingCol (kind : String) (col : String)
  | noDate (filename : String)
  | noFiles (kind : String)
deriving DecidableEq

/-- `pd.to_datetime(col, errors='coerce')` cell-wise: parseable timestamps
are modelled as already-parsed `time` cells and stay; every other cell
coerces to `NaT` (null). -/
def toDatetimeCell : Cell → Cell
  | .time t => .time t
  | _ => .null

/-- Rendering of the calendar day of an instant, abstracting
`strftime('%Y-%m-%d')`: the epoch-day index (minutes / 1440) printed as a
string.  The embedding only needs this map to be a function of the day. -/
def dayString (t : ℕ) : String := toString (t / 1440)

/-- `df['数据时间'].dt.strftime('%Y-%m-%d')` cell-wise: a date string for a
valid instant, `NaN` (null) for `NaT`. -/
def dateCell : Cell → Cell
  | .time t => .str (dayString t)
  | _ => .null

/-- Add every canonical column absent from the table, set to null
(`df[col] = None` over `missing_columns`, in canonical-list order). -/
def fillMissing (df : Table) : Table :=
  (standardColumns.filter (fun c => !hasCol df c)).foldl
    (fun t c => setColConst t c .null) df

/-- Stamp provenance: `df['源文件'] = basename`, `df['数据类型'] = kind`. -/
def stampProvenance (df : Table) (filename kind : String) : Table :=
  setColConst (setColConst df "源文件" (.str filename)) "数据类型" (.str kind)

/-- The timestamp-parsing step of the 低环 path:
`df['数据时间'] = pd.to_datetime(df['数据时间'], errors='coerce')`. -/
def lowTimed (filename : String) (df : Table) : Table :=
  mapCol (stampProvenance (fillMissing df) filename "低环") "数据时间" toDatetimeCell

/-- The date-derivation step of the 低环 path:
`df['日期'] = df['数据时间'].dt.strftime('%Y-%m-%d')`. -/
def lowDated (filename : String) (df : Table) : Table :=
  setCol (lowTimed filename df) "日期"
    ((getColD (lowTimed filename df) "数据时间").map dateCell)

/-- The success path of `process_low_cycle_data`: pad the canonical schema
with null columns, stamp provenance, parse the timestamp column, derive the
date column, and reorder to the canonical column order. -/
def lowUnify (filename : String) (df : Table) : Table :=
  selectCols (lowDated filename df) standardColumns

/-- `HeatDataMerger.process_low_cycle_data`: verify the required 低环
columns (raising on the first missing one), then unify. -/
def process_low_cycle_data (filename : String) (df : Table) :
    Except MergeError Table :=
  match requiredLowColumns.find? (fun c => !hasCol df c) with
  | some c => .error (.missingCol "低环" c)
  | none => .ok (lowUnify filename df)

/-- One attempt of `re.search(r'(\d{4}-\d{2}-\d{2})', ...)` at the head of a
character list: ten characters shaped `DDDD-DD-DD`. -/
def matchDateAt : List Char → Option String
  | a :: b :: c :: d :: h1 :: e :: f :: h2 :: g :: h :: _ =>
    if a.isDigit && b.isDigit && c.isDigit && d.isDigit && h1 == '-'
        && e.isDigit && f.isDigit && h2 == '-' && g.isDigit && h.isDigit then
      some (String.mk [a, b, c, d, '-', e, f, '-', g, h])
    else
      none
  | _ => none

/-- Leftmost match of the pattern, scanning positions left to right as
`re.search` does. -/
def searchDate : List Char → Option String
  | [] => none
  | x :: rest =>
    match matchDateAt (x :: rest) with
    | some s => some s
    | none => searchDate rest

/-- Extract the first `YYYY-MM-DD`-shaped substring of a file name. -/
def extractDate (filename : String) : Option String :=
  searchDate filename.toList

/-- Split a character list at a separator (the semantics of
`str.split(sep)`, structurally recursive). -/
def splitCh (sep : Char) : List Char → List (List Char)
  | [] => [[]]
  | ch :: rest =>
    match splitCh sep rest with
    | [] => [[]]
    | g :: gs => if ch == sep then [] :: g :: gs else (ch :: g) :: gs

/-- The numeric value of a nonempty all-digit character group (the
semantics of `int(...)` on a decimal literal, structurally recursive). -/
def digitsToNat? (l : List Char) : Option ℕ :=
  if l.isEmpty then none
  else if l.all Char.isDigit then
    some (l.foldl (fun n ch => 10 * n + (ch.toNat - 48)) 0)
  else none

/-- Clock-string parsing, abstracting `pd.to_datetime` on
`"YYYY-MM-DD HH:MM[:SS]"`: minutes past midnight for a valid clock time,
nothing otherwise (sub-minute precision is dropped, instants being
minutes). -/
def parseClock (s : String) : Option ℕ :=
  match splitCh ':' s.toList with
  | [h, m] =>
    match digitsToNat? h, digitsToNat? m with
    | some hh, some mm => if hh < 24 && mm < 60 then some (hh * 60 + mm) else none
    | _, _ => none
  | [h, m, sec] =>
    match digitsToNat? h, digitsToNat? m, digitsToNat? sec with
    | some hh, some mm, some ss =>
      if hh < 24 && mm < 60 && ss < 60 then some (hh * 60 + mm) else none
    | _, _, _ => none
  | _ => none

/-- An injective numeric key for a `YYYY-MM-DD` date string; the
calendar-to-epoch-day conversion is abstracted to this encoding (no claim
depends on the concrete instant values produced from file-name dates). -/
def dateKey (d : String) : ℕ :=
  match splitCh '-' d.toList with
  | [y, m, dd] =>
    ((digitsToNat? y).getD 0 * 100 + (digitsToNat? m).getD 0) * 100 +
      (digitsToNat? dd).getD 0
  | _ => 0

/-- `combine_datetime` of `process_two_network_data`, cell-wise: a non-blank
string containing a colon is combined with the file-derived date into an
instant (coercing to null when the clock does not parse); every other cell
yields null.  Non-string cells stringify without a colon, and a `time` cell
stringifies to a full timestamp whose combination with the date fails to
parse, so both yield null. -/
def combineCell (fileDate : String) : Cell → Cell
  | .str s =>
    if !s.toList.all Char.isWhitespace && s.toList.contains ':' then
      match parseClock s with
      | some m => .time (dateKey fileDate * 1440 + m)
      | none => .null
    else .null
  | _ => .null

/-- The 二网 path after provenance and date stamping:
`df['日期'] = file_date`, then
`df['数据时间'] = df.apply(combine_datetime, axis=1)`. -/
def twoTimed (filename d : String) (df : Table) : Table :=
  mapCol (setColConst (stampProvenance (fillMissing df) filename "二网") "日期" (.str d))
    "数据时间" (combineCell d)

/-- The success path of `process_two_network_data`, given the date `d`
already extracted from the file name: pad the canonical schema, stamp
provenance, set the date column, combine clock strings with the file date,
and reorder to the canonical column order. -/
def twoUnify (filename d : String) (df : Table) : Table :=
  selectCols (twoTimed filename d df) standardColumns

/-- `HeatDataMerger.process_two_network_data`: verify the required 二网
columns (raising on the first missing one), extract the date from the file
name (raising when no `YYYY-MM-DD` substring exists), then unify. -/
def process_two_network_data (filename : String) (df : Table) :
    Except MergeError Table :=
  match requiredTwoColumns.find? (fun c => !hasCol df c) with
  | some c => .error (.missingCol "二网" c)
  | none =>
    match extractDate filename with
    | none => .error (.noDate filename)
    | some d => .ok (twoUnify filename d df)

/-- `pd.concat(tables, ignore_index=True)` for tables sharing one schema
(as the processed tables all do: the canonical schema): row counts add and
each column of the head is continued by the same-named column of every
other table. -/
def concatTables : List Table → Table
  | [] => ⟨0, []⟩
  | t :: ts =>
    ⟨((t :: ts).map Table.nRows).sum,
     t.cols.map (fun p => (p.1, ((t :: ts).map (fun u => getColD u p.1)).flatten))⟩

/-- The per-file processing loop of `merge_all_data`: process each file in
order, propagating the first error. -/
def processAll (f : String × Table → Except MergeError Table) :
    List (String × Table) → Except MergeError (List Table)
  | [] => .ok []
  | p :: ps =>
    match f p with
    | .error e => .error e
    | .ok t =>
      match processAll f ps with
      | .error e => .error e
      | .ok ts => .ok (t :: ts)

/-- `HeatDataMerger.merge_all_data`, with file discovery abstracted to the
two lists of (file name, raw table) pairs it produces: fail when a category
is empty, unify every file, concatenate within each category, then
concatenate the two categories. -/
def merge_all_data (lows twos : List (String × Table)) :
    Except MergeError Table :=
  if lows.isEmpty then .error (.noFiles "低环")
  else if twos.isEmpty then .error (.noFiles "二网")
  else
    match processAll (fun p => process_low_cycle_data p.1 p.2) lows with
    | .error e => .error e
    | .ok ls =>
      match processAll (fun p => process_two_network_data p.1 p.2) twos with
      | .error e => .error e
      | .ok ts => .ok (concatTables [concatTables ls, concatTables ts])

/-! ### Grouped hourly resampler (`ChartGenerator._resample_data`) -/

/-- A row of the frame reaching `_resample_data`: a parsed instant
(minutes since the epoch; rows whose timestamp failed to parse are dropped
by resampling and are not modelled), the 位置/楼层 key values, and the
measurement cells by column name (`none` = NaN). -/
structure RawRow where
  datetime : ℕ
  loc : String
  fl : String
  vals : List (String × Option ℚ)
deriving DecidableEq

/-- The frame reaching `_resample_data`: its column names and rows. -/
structure RawFrame where
  cols : List String
  rows : List RawRow
deriving DecidableEq

/-- The four recognized measurement columns (`value_columns`). -/
def valueColumns : List String :=
  ["室温温度(℃)", "瞬时流量(T/H)", "供温(℃)", "回温(℃)"]

/-- The measurement value of a row in column `c` (`none` = NaN or column
meaningless for this row). -/
def getVal (r : RawRow) (c : String) : Option ℚ := (r.vals.lookup c).join

/-- `Timestamp.floor('h')` in minutes. -/
def floorHour (t : ℕ) : ℕ := 60 * (t / 60)

/-- `Timestamp.ceil('h')` in minutes. -/
def ceilHour (t : ℕ) : ℕ := 60 * ((t + 59) / 60)

/-- `pd.date_range(start=a, end=b, freq='h')` for hour-aligned `a ≤ b`:
the instants `a, a+60, …` up to `b`. -/
def hourRange (a b : ℕ) : List ℕ :=
  (List.range ((b - a) / 60 + 1)).map (fun i => a + 60 * i)

/-- `series.min()` (none on an empty column, i.e. pandas `NaT`). -/
def listMin? : List ℕ → Option ℕ
  | [] => none
  | x :: xs => some (xs.foldl min x)

/-- `series.max()` (none on an empty column). -/
def listMax? : List ℕ → Option ℕ
  | [] => none
  | x :: xs => some (xs.foldl max x)

/-- The (位置, 楼层) grouping key of a row. -/
def keyOf (r : RawRow) : String × String := (r.loc, r.fl)

/-- The NaN-skipping mean pandas takes over one resampling bucket: the mean
of the present values, missing when none are present. -/
def meanOpt (l : List ℚ) : Option ℚ :=
  if l.isEmpty then none else some (l.sum / l.length)

/-- The present values of column `c` among the rows falling in the hour
bucket starting at `h`. -/
def bucketVals (rows : List RawRow) (h : ℕ) (c : String) : List ℚ :=
  (rows.filter (fun r => floorHour r.datetime == h)).filterMap (fun r => getVal r c)

/-- `group.resample('1h', on='datetime')[cols].mean()`: one bucket per hour
from the hour of the group's earliest timestamp to the hour of its latest,
each holding the per-column NaN-skipping means (empty frames cannot reach
this point). -/
def resampleGroup (rows : List RawRow) (cols : List String) :
    List (ℕ × List (String × Option ℚ)) :=
  match listMin? (rows.map RawRow.datetime), listMax? (rows.map RawRow.datetime) with
  | some mn, some mx =>
    (hourRange (floorHour mn) (floorHour mx)).map
      (fun h => (h, cols.map (fun c => (c, meanOpt (bucketVals rows h c)))))
  | _, _ => []

/-- `.reindex(full_time_index)` looked up at one label and column: the
resampled value where the label exists in the bucket list, NaN where it does
not. -/
def reindexVal (bk : List (ℕ × List (String × Option ℚ))) (h : ℕ) (c : String) :
    Option ℚ :=
  (bk.lookup h).bind (fun entry => (entry.lookup c).join)

/-- A row of the resampled output: the timeline instant, the re-attached
(位置, 楼层) key (absent in the traditional, ungrouped branch), and the
per-column values. -/
structure RRow where
  time : ℕ
  key : Option (String × String)
  vals : List (String × Option ℚ)
deriving DecidableEq

/-- The result of `_resample_data`: either the input frame returned
unchanged (no recognized measurement column) or a resampled frame. -/
inductive ResampleResult where
  | raw (df : RawFrame)
  | resampled (rows : List RRow)
deriving DecidableEq

/-- Lexicographic order on (位置, 楼层) keys, matching the sorted group
order of `df.groupby([...], sort=True)` (the pandas default). -/
def keyLe (a b : String × String) : Bool :=
  match compare a.1 b.1 with
  | .lt => true
  | .gt => false
  | .eq =>
    match compare a.2 b.2 with
    | .gt => false
    | _ => true

/-- Sorted insertion for `sortKeys`. -/
def insertKey (k : String × String) : List (String × String) → List (String × String)
  | [] => [k]
  | x :: xs => if keyLe k x then k :: x :: xs else x :: insertKey k xs

/-- Insertion sort of grouping keys. -/
def sortKeys : List (String × String) → List (String × String)
  | [] => []
  | x :: xs => insertKey x (sortKeys xs)

/-- The distinct (位置, 楼层) keys of the frame in the order
`df.groupby(['位置', '楼层'])` iterates them (sorted; group keys are the
string-valued cells, never NaN, so no group is dropped). -/
def groupKeys (rows : List RawRow) : List (String × String) :=
  sortKeys (rows.map keyOf).dedup

/-- `available_columns`: the recognized measurement columns present in the
frame. -/
def availableCols (df : RawFrame) : List String :=
  valueColumns.filter (fun c => df.cols.contains c)

/-- One (位置, 楼层) group's contribution to the grouped resampled output:
the group's rows are resampled over the group's own hour span
(`group.resample('1h', on='datetime')[available_columns].mean()`), the
result is reindexed onto the global hourly `timeline`, and the key is
re-attached. -/
def groupBlock (df : RawFrame) (timeline : List ℕ) (k : String × String) :
    List RRow :=
  timeline.map (fun h =>
    ⟨h, some k, (availableCols df).map (fun c =>
      (c, reindexVal
        (resampleGroup (df.rows.filter (fun r => keyOf r == k)) (availableCols df))
        h c))⟩)

/-- The traditional (ungrouped) branch: the whole frame resampled and
reindexed onto the global hourly timeline. -/
def wholeBlock (df : RawFrame) (timeline : List ℕ) : List RRow :=
  timeline.map (fun h =>
    ⟨h, none, (availableCols df).map (fun c =>
      (c, reindexVal (resampleGroup df.rows (availableCols df)) h c))⟩)

/-- `ChartGenerator._resample_data`.  Returns `none` exactly when pandas
would raise (an empty frame has `NaT` extrema and `date_range` fails);
`clean_and_preprocess_data` converts that into a failure.  Otherwise:
with no recognized measurement column the input frame is returned as is;
with the key columns present, each (位置, 楼层) group is resampled over its
own span and reindexed onto the global hourly timeline running from
`floor(min)` to `ceil(max)` of the whole frame, the key being re-attached;
without key columns the whole frame is resampled and reindexed the same
way. -/
def resample_data (df : RawFrame) : Option ResampleResult :=
  if (availableCols df).isEmpty then some (.raw df)
  else
    match listMin? (df.rows.map RawRow.datetime),
        listMax? (df.rows.map RawRow.datetime) with
    | some mn, some mx =>
      if df.cols.contains "位置" && df.cols.contains "楼层" then
        some (.resampled ((groupKeys df.rows).flatMap
          (groupBlock df (hourRange (floorHour mn) (ceilHour mx)))))
      else
        some (.resampled (wholeBlock df (hourRange (floorHour mn) (ceilHour mx))))
    | _, _ => none

/-! ### Smoothing and confidence engine (`smooth_data_with_confidence`)

Rolling-window semantics follow pandas: for
`series.rolling(window=w, center=True, min_periods=mp)` the window labelled
`i` covers the positions `[i + 1 + (w-1)//2 - w, i + 1 + (w-1)//2)` clipped
to the series (pandas `FixedWindowIndexer.get_window_bounds` uses
`offset = (w-1)//2`, `end = i + 1 + offset`, `start = end - w`); a window
statistic is taken over the non-missing values there and is missing when
fewer than `mp` are present; `.std()` (sample standard deviation,
`ddof=1`) is additionally missing when fewer than two values are present. -/

/-- The pandas centered rolling window of size `w` labelled `i`, as the
half-open index interval `[start, stop)` already clipped to a series of
length `n`. -/
def rollingWindow (n w i : ℕ) : ℕ × ℕ :=
  (i + 1 + (w - 1) / 2 - w, min (i + 1 + (w - 1) / 2) n)

/-- The non-missing values inside the rolling window labelled `i`. -/
def windowVals (data : List (Option ℚ)) (w i : ℕ) : List ℚ :=
  ((data.drop (rollingWindow data.length w i).1).take
    ((rollingWindow data.length w i).2 - (rollingWindow data.length w i).1)).reduceOption

/-- `min_periods = max(1, window_size // 2)` as set by
`smooth_data_with_confidence`. -/
def minPeriods (w : ℕ) : ℕ := max 1 (w / 2)

/-- `series.rolling(window=w, center=True, min_periods=mp).mean()`:
position `i` holds the mean of the non-missing window values once at least
`mp` of them are present, and is missing otherwise. -/
def rollingMean (data : List (Option ℚ)) (w mp : ℕ) : List (Option ℚ) :=
  (List.range data.length).map (fun i =>
    let vs := windowVals data w i
    if mp ≤ vs.length then some (vs.sum / vs.length) else none)

/-- The sample variance (`ddof=1`) of a list of values (meaningful for two
or more values; callers gate on that). -/
def sampleVar (vs : List ℚ) : ℚ :=
  (vs.map (fun x => (x - vs.sum / (vs.length : ℚ)) ^ 2)).sum / ((vs.length : ℚ) - 1)

/-- `series.rolling(window=w, center=True, min_periods=mp).std()`:
the sample standard deviation of the non-missing window values, missing
when fewer than `mp`, or fewer than two, are present (with `ddof=1` a
single observation has no standard deviation). -/
noncomputable def rollingStd (data : List (Option ℚ)) (w mp : ℕ) : List (Option ℝ) :=
  (List.range data.length).map (fun i =>
    let vs := windowVals data w i
    if mp ≤ vs.length ∧ 2 ≤ vs.length then
      some (Real.sqrt ((sampleVar vs : ℚ) : ℝ))
    else none)

/-- The cumulative distribution function of the standard normal
distribution, as the integral of the Gaussian density. -/
noncomputable def stdNormalCDF (x : ℝ) : ℝ :=
  ∫ t in Set.Iic x, ProbabilityTheory.gaussianPDFReal 0 1 t

/-- `scipy.stats.norm.ppf`: the quantile (generalized inverse CDF) of the
standard normal distribution. -/
noncomputable def normPpf (p : ℝ) : ℝ :=
  sInf {x : ℝ | p ≤ stdNormalCDF x}

/-- `stats.norm.ppf(1 - (1 - confidence) / 2)`: the two-tailed z-score at
the given confidence level. -/
noncomputable def zScore (confidence : ℝ) : ℝ :=
  normPpf (1 - (1 - confidence) / 2)

/-- The three series returned by `smooth_data_with_confidence`. -/
structure SmoothOut where
  smoothed : List (Option ℚ)
  lower : List (Option ℝ)
  upper : List (Option ℝ)

/-- Missing-propagating combination of a smoothed value and a margin
(`smoothed ± margin` on NaN-carrying series). -/
def combineOpt (f : ℝ → ℝ → ℝ) : Option ℚ → Option ℝ → Option ℝ
  | some x, some m => some (f (x : ℝ) m)
  | _, _ => none

/-- The margin-of-error series: the rolling standard deviation turned into
the standard error (`std / np.sqrt(n)` with `n = window_size`) and scaled
by the z-score (`margin_error = z_score * standard_error`). -/
noncomputable def marginSeries (data : List (Option ℚ)) (w : ℕ)
    (confidence : ℝ) : List (Option ℝ) :=
  ((rollingStd data w (minPeriods w)).map (fun o => o.map (fun s => s / Real.sqrt w))).map
    (fun o => o.map (fun s => zScore confidence * s))

/-- `smooth_data_with_confidence(data_series, window_size, confidence)`:
centered rolling mean and rolling standard deviation with
`min_periods = max(1, window_size // 2)`, standard error `std / sqrt(n)`
with `n = window_size`, margin `z * standard_error` with
`z = norm.ppf(1 - (1-confidence)/2)`, and the band
`smoothed ∓ margin`. -/
noncomputable def smooth_data_with_confidence (data : List (Option ℚ)) (w : ℕ)
    (confidence : ℝ) : SmoothOut :=
  ⟨rollingMean data w (minPeriods w),
   List.zipWith (combineOpt (fun x m => x - m)) (rollingMean data w (minPeriods w))
     (marginSeries data w confidence),
   List.zipWith (combineOpt (fun x m => x + m)) (rollingMean data w (minPeriods w))
     (marginSeries data w confidence)⟩

/-! ### Spec-side smoothing definitions

These follow the specification's words, not the code: the window "centered
on i" extends `window_size // 2` to each side of `i`, the smoothed value is
the mean of the non-missing values there once at least
`max(1, window_size // 2)` are present, and the band is
`smoothed ∓ z * (std / sqrt window_size)` over the same window. -/

/-- The non-missing values in the spec's symmetric window
`[i - w/2, i + w/2]` (clipped to the series). -/
def specWindowVals (data : List (Option ℚ)) (w i : ℕ) : List ℚ :=
  ((data.drop (i - w / 2)).take (i + w / 2 + 1 - (i - w / 2))).reduceOption

/-- The spec's smoothed value at position `i`. -/
def specSmoothedAt (data : List (Option ℚ)) (w i : ℕ) : Option ℚ :=
  let vs := specWindowVals data w i
  if max 1 (w / 2) ≤ vs.length then some (vs.sum / vs.length) else none

/-- The spec's rolling standard deviation at position `i` (sample standard
deviation over the same symmetric window, subject to the same availability
as the code's: the `min_periods` threshold and at least two values). -/
noncomputable def specStdAt (data : List (Option ℚ)) (w i : ℕ) : Option ℝ :=
  let vs := specWindowVals data w i
  if max 1 (w / 2) ≤ vs.length ∧ 2 ≤ vs.length then
    some (Real.sqrt ((sampleVar vs : ℚ) : ℝ))
  else none

/-- The spec's lower confidence bound at `i`:
`smoothed - z(confidence) * (std / sqrt w)` where both parts exist. -/
noncomputable def specLowerAt (data : List (Option ℚ)) (w : ℕ) (confidence : ℝ)
    (i : ℕ) : Option ℝ :=
  combineOpt (fun x m => x - m) (specSmoothedAt data w i)
    ((specStdAt data w i).map (fun s => zScore confidence * (s / Real.sqrt w)))

/-- The spec's upper confidence bound at `i`. -/
noncomputable def specUpperAt (data : List (Option ℚ)) (w : ℕ) (confidence : ℝ)
    (i : ℕ) : Option ℝ :=
  combineOpt (fun x m => x + m) (specSmoothedAt data w i)
    ((specStdAt data w i).map (fun s => zScore confidence * (s / Real.sqrt w)))

/-! ### Concrete fixtures used by witnesses and counterexamples -/

/-- A minimal 低环 raw table: exactly the eleven required columns, one row. -/
def exampleLowTable : Table :=
  ⟨1, [("序号", [.num 1]), ("管理单位", [.str "单位"]), ("管理所", [.str "所"]),
      ("换热站", [.str "站"]), ("测点名称", [.str "点"]), ("位置", [.str "一号楼"]),
      ("楼层", [.str "1"]), ("设备标识", [.str "dev"]), ("数据时间", [.time 480]),
      ("室温温度(℃)", [.num 20]), ("报警状态", [.str "正常"])]⟩

/-- A minimal 二网 raw table: exactly the fourteen required columns, one
row. -/
def exampleTwoTable : Table :=
  ⟨1, [("环路", [.str "1"]), ("计划热量(GJ)", [.num 1]), ("瞬时热量(GJ/H)", [.num 1]),
      ("热量(GJ)", [.num 1]), ("瞬时流量(T/H)", [.num 2]), ("单位流量(T/万㎡)", [.num 1]),
      ("阀门开度(%)", [.num 50]), ("设定(℃)", [.num 40]), ("反馈(℃)", [.num 39]),
      ("供温(℃)", [.num 60]), ("回温(℃)", [.num 45]), ("供压(Mpa)", [.num 1]),
      ("回压(Mpa)", [.num 1]), ("数据时间", [.str "08:00"])]⟩

/-- A raw table missing every required 二网 column. -/
def missingLoopTable : Table := ⟨1, [("别的", [Cell.null])]⟩

/-- A one-file 低环 input for the merge orchestrator. -/
def exLows : List (String × Table) := [("低环数据.xlsx", exampleLowTable)]

/-- A one-file 二网 input (file name carrying a date) for the merge
orchestrator. -/
def exTwos : List (String × Table) := [("二网数据2023-11-20.xlsx", exampleTwoTable)]

/-- A keyed frame with one (位置, 楼层) pair and data only in the first of
the two global timeline hours. -/
def exRawFrame : RawFrame :=
  ⟨["位置", "楼层", "室温温度(℃)"],
   [⟨0, "A", "1", [("室温温度(℃)", some 10)]⟩,
    ⟨30, "A", "1", [("室温温度(℃)", some 20)]⟩]⟩

/-- A keyed frame whose three readings 10, 20, 30 all fall in one hour. -/
def exMeanFrame : RawFrame :=
  ⟨["位置", "楼层", "室温温度(℃)"],
   [⟨0, "A", "1", [("室温温度(℃)", some 10)]⟩,
    ⟨10, "A", "1", [("室温温度(℃)", some 20)]⟩,
    ⟨20, "A", "1", [("室温温度(℃)", some 30)]⟩]⟩

/-- A frame containing none of the four recognized measurement columns. -/
def noMeasFrame : RawFrame := ⟨["别的"], [⟨0, "A", "1", []⟩]⟩

/-! ## Theorems

### Basic table lemmas -/

theorem find?_fst_map {β γ : Type} (f : String × β → String × γ)
    (hf : ∀ p, (f p).1 = p.1) (l : List (String × β)) (c : String) :
    (l.map f).find? (fun p => p.1 == c) = (l.find? (fun p => p.1 == c)).map f := by
  induction l with
  | nil => rfl
  | cons p l ih =>
    rw [List.map_cons, List.find?_cons, List.find?_cons, hf p]
    cases h : (p.1 == c) with
    | true => rfl
    | false => exact ih

theorem hasCol_iff_exists {t : Table} {c : String} :
    hasCol t c = true ↔ ∃ p ∈ t.cols, p.1 = c := by
  simp [hasCol, List.any_eq_true]

theorem nRows_setCol (t : Table) (c : String) (v : List Cell) :
    (setCol t c v).nRows = t.nRows := by
  unfold setCol; split <;> rfl

theorem getCol?_setCol_self (t : Table) (c : String) (v : List Cell) :
    getCol? (setCol t c v) c = some v := by
  unfold setCol getCol?
  split
  · rename_i h
    rw [find?_fst_map (fun p => if p.1 == c then (p.1, v) else p)
      (by intro p; dsimp only; split <;> rfl)]
    have h2 : (t.cols.find? (fun p => p.1 == c)).isSome := by
      rw [List.find?_isSome]
      simpa [hasCol, List.any_eq_true] using h
    obtain ⟨q, hq⟩ := Option.isSome_iff_exists.mp h2
    have hqc : q.1 = c := by simpa using List.find?_some hq
    simp [hq, hqc]
  · rename_i h
    rw [List.find?_append]
    have hnone : t.cols.find? (fun p => p.1 == c) = none := by
      rw [List.find?_eq_none]
      intro p hp hpc
      exact h (hasCol_iff_exists.mpr ⟨p, hp, by simpa using hpc⟩)
    rw [hnone, List.find?_cons_of_pos _ (by simp), Option.none_or]
    rfl

theorem getCol?_setCol_ne (t : Table) {c' c : String} (v : List Cell)
    (h : c' ≠ c) : getCol? (setCol t c' v) c = getCol? t c := by
  unfold setCol getCol?
  split
  · rw [find?_fst_map (fun p => if p.1 == c' then (p.1, v) else p)
      (by intro p; dsimp only; split <;> rfl)]
    cases hq : t.cols.find? (fun p => p.1 == c) with
    | none => simp
    | some q =>
      have hqc : q.1 = c := by simpa using List.find?_some hq
      have hq' : q.1 ≠ c' := by rw [hqc]; exact fun hcc => h hcc.symm
      simp [hq']
  · rw [List.find?_append]
    have htail : List.find? (fun p => p.1 == c) [(c', v)] = none := by
      rw [List.find?_cons_of_neg _ (by simpa using h)]
      rfl
    rw [htail]
    cases t.cols.find? (fun p => p.1 == c) <;> rfl

theorem nRows_setColConst (t : Table) (c : String) (x : Cell) :
    (setColConst t c x).nRows = t.nRows := nRows_setCol ..

theorem getCol?_setColConst_self (t : Table) (c : String) (x : Cell) :
    getCol? (setColConst t c x) c = some (List.replicate t.nRows x) :=
  getCol?_setCol_self ..

theorem getCol?_setColConst_ne (t : Table) {c' c : String} (x : Cell)
    (h : c' ≠ c) : getCol? (setColConst t c' x) c = getCol? t c :=
  getCol?_setCol_ne _ _ h

theorem nRows_mapCol (t : Table) (c : String) (f : Cell → Cell) :
    (mapCol t c f).nRows = t.nRows := nRows_setCol ..

theorem getCol?_mapCol_ne (t : Table) {c' c : String} (f : Cell → Cell)
    (h : c' ≠ c) : getCol? (mapCol t c' f) c = getCol? t c :=
  getCol?_setCol_ne _ _ h

theorem nRows_selectCols (t : Table) (sel : List String) :
    (selectCols t sel).nRows = t.nRows := rfl

theorem colNames_selectCols (t : Table) (sel : List String) :
    colNames (selectCols t sel) = sel := by
  simp only [colNames, selectCols, List.map_map]
  have hid : (Prod.fst ∘ fun c => (c, getColD t c)) = id := by
    funext c; rfl
  rw [hid, List.map_id]

theorem getCol?_selectCols {t : Table} {sel : List String} {c : String}
    (h : c ∈ sel) : getCol? (selectCols t sel) c = some (getColD t c) := by
  unfold selectCols getCol?
  induction sel with
  | nil => cases h
  | cons c' sel ih =>
    by_cases hc : c' = c
    · subst hc
      rw [List.map_cons, List.find?_cons_of_pos _ (by simp)]
      rfl
    · rcases List.mem_cons.mp h with h1 | h1
      · exact absurd h1.symm hc
      · rw [List.map_cons, List.find?_cons_of_neg _ (by simpa using hc)]
        exact ih h1

theorem nRows_fillFold (L : List String) (df : Table) :
    (L.foldl (fun t c => setColConst t c Cell.null) df).nRows = df.nRows := by
  induction L generalizing df with
  | nil => rfl
  | cons c L ih => rw [List.foldl_cons, ih, nRows_setColConst]

theorem getCol?_fillFold (L : List String) (df : Table) (c : String) :
    getCol? (L.foldl (fun t c' => setColConst t c' Cell.null) df) c =
      if c ∈ L then some (List.replicate df.nRows Cell.null) else getCol? df c := by
  induction L generalizing df with
  | nil => simp
  | cons c' L ih =>
    rw [List.foldl_cons, ih, nRows_setColConst]
    by_cases hcL : c ∈ L
    · rw [if_pos hcL, if_pos (List.mem_cons.mpr (Or.inr hcL))]
    · rw [if_neg hcL]
      by_cases hcc : c' = c
      · subst hcc
        rw [getCol?_setColConst_self, if_pos (List.mem_cons.mpr (Or.inl rfl))]
      · rw [getCol?_setColConst_ne df Cell.null hcc,
          if_neg (fun hm => (List.mem_cons.mp hm).elim (fun h1 => hcc h1.symm) hcL)]

theorem nRows_fillMissing (df : Table) : (fillMissing df).nRows = df.nRows :=
  nRows_fillFold ..

theorem getCol?_fillMissing_absent {df : Table} {c : String}
    (hstd : c ∈ standardColumns) (habs : hasCol df c = false) :
    getCol? (fillMissing df) c = some (List.replicate df.nRows Cell.null) := by
  rw [fillMissing, getCol?_fillFold, if_pos]
  rw [List.mem_filter]
  exact ⟨hstd, by rw [habs]; rfl⟩

theorem getCol?_fillMissing_present {df : Table} {c : String}
    (hpres : hasCol df c = true) :
    getCol? (fillMissing df) c = getCol? df c := by
  rw [fillMissing, getCol?_fillFold, if_neg]
  rw [List.mem_filter]
  rintro ⟨-, hneg⟩
  rw [hpres] at hneg
  cases hneg

theorem WF_setCol {t : Table} {v : List Cell} (h : t.WF) (hv : v.length = t.nRows)
    (c : String) : (setCol t c v).WF := by
  intro p hp
  rw [nRows_setCol]
  unfold setCol at hp
  split at hp
  · dsimp only at hp
    simp only [List.mem_map] at hp
    obtain ⟨q, hq, rfl⟩ := hp
    by_cases hqc : (q.1 == c) = true
    · simp only [if_pos hqc]
      exact hv
    · simp only [if_neg hqc]
      exact h q hq
  · dsimp only at hp
    rcases List.mem_append.mp hp with h1 | h1
    · exact h p h1
    · rcases List.mem_singleton.mp h1 with rfl
      exact hv

theorem getColD_length {t : Table} (h : t.WF) (c : String) :
    (getColD t c).length = t.nRows := by
  unfold getColD getCol?
  cases hf : t.cols.find? (fun p => p.1 == c) with
  | none => simp
  | some q => simpa using h q (List.mem_of_find?_eq_some hf)

theorem WF_setColConst {t : Table} (h : t.WF) (c : String) (x : Cell) :
    (setColConst t c x).WF :=
  WF_setCol h (List.length_replicate ..) c

theorem WF_mapCol {t : Table} (h : t.WF) (c : String) (f : Cell → Cell) :
    (mapCol t c f).WF :=
  WF_setCol h (by rw [List.length_map]; exact getColD_length h c) c

theorem WF_selectCols {t : Table} (h : t.WF) (sel : List String) :
    (selectCols t sel).WF := by
  intro p hp
  simp only [selectCols, List.mem_map] at hp
  obtain ⟨c, hc, rfl⟩ := hp
  exact getColD_length h c

theorem WF_fillMissing {df : Table} (h : df.WF) : (fillMissing df).WF := by
  rw [fillMissing]
  generalize standardColumns.filter (fun c => !hasCol df c) = L
  induction L generalizing df with
  | nil => exact h
  | cons c L ih => exact ih (WF_setColConst h c Cell.null)

theorem nRows_stampProvenance (df : Table) (f k : String) :
    (stampProvenance df f k).nRows = df.nRows := by
  rw [stampProvenance, nRows_setColConst, nRows_setColConst]

theorem nRows_lowTimed (f : String) (df : Table) :
    (lowTimed f df).nRows = df.nRows := by
  rw [lowTimed, nRows_mapCol, nRows_stampProvenance, nRows_fillMissing]

theorem nRows_lowDated (f : String) (df : Table) :
    (lowDated f df).nRows = df.nRows := by
  rw [lowDated, nRows_setCol, nRows_lowTimed]

theorem nRows_lowUnify (f : String) (df : Table) :
    (lowUnify f df).nRows = df.nRows := by
  rw [lowUnify, nRows_selectCols, nRows_lowDated]

theorem nRows_twoTimed (f d : String) (df : Table) :
    (twoTimed f d df).nRows = df.nRows := by
  rw [twoTimed, nRows_mapCol, nRows_setColConst, nRows_stampProvenance,
    nRows_fillMissing]

theorem nRows_twoUnify (f d : String) (df : Table) :
    (twoUnify f d df).nRows = df.nRows := by
  rw [twoUnify, nRows_selectCols, nRows_twoTimed]

theorem WF_stampProvenance {df : Table} (h : df.WF) (f k : String) :
    (stampProvenance df f k).WF :=
  WF_setColConst (WF_setColConst h _ _) _ _

theorem WF_lowTimed {df : Table} (h : df.WF) (f : String) :
    (lowTimed f df).WF :=
  WF_mapCol (WF_stampProvenance (WF_fillMissing h) f "低环") _ _

theorem WF_lowDated {df : Table} (h : df.WF) (f : String) :
    (lowDated f df).WF :=
  WF_setCol (WF_lowTimed h f)
    (by rw [List.length_map]; exact getColD_length (WF_lowTimed h f) _) _

theorem WF_lowUnify {df : Table} (h : df.WF) (f : String) :
    (lowUnify f df).WF :=
  WF_selectCols (WF_lowDated h f) _

theorem WF_twoTimed {df : Table} (h : df.WF) (f d : String) :
    (twoTimed f d df).WF :=
  WF_mapCol (WF_setColConst (WF_stampProvenance (WF_fillMissing h) f "二网") _ _) _ _

theorem WF_twoUnify {df : Table} (h : df.WF) (f d : String) :
    (twoUnify f d df).WF :=
  WF_selectCols (WF_twoTimed h f d) _

theorem getCol?_lowDated_other {c : String} (f : String) (df : Table)
    (hdat : c ≠ "日期") (htim : c ≠ "数据时间") (hsrc : c ≠ "源文件")
    (hknd : c ≠ "数据类型") :
    getCol? (lowDated f df) c = getCol? (fillMissing df) c := by
  rw [lowDated, getCol?_setCol_ne _ _ (Ne.symm hdat), lowTimed,
    getCol?_mapCol_ne _ _ (Ne.symm htim), stampProvenance,
    getCol?_setColConst_ne _ _ (Ne.symm hknd),
    getCol?_setColConst_ne _ _ (Ne.symm hsrc)]

theorem getCol?_twoTimed_other {c : String} (f d : String) (df : Table)
    (hdat : c ≠ "日期") (htim : c ≠ "数据时间") (hsrc : c ≠ "源文件")
    (hknd : c ≠ "数据类型") :
    getCol? (twoTimed f d df) c = getCol? (fillMissing df) c := by
  rw [twoTimed, getCol?_mapCol_ne _ _ (Ne.symm htim),
    getCol?_setColConst_ne _ _ (Ne.symm hdat), stampProvenance,
    getCol?_setColConst_ne _ _ (Ne.symm hknd),
    getCol?_setColConst_ne _ _ (Ne.symm hsrc)]

theorem getColD_lowUnify_tag (f : String) (df : Table) :
    getColD (lowUnify f df) "数据类型" = List.replicate df.nRows (Cell.str "低环") := by
  have h5 : getCol? (lowDated f df) "数据类型" =
      some (List.replicate df.nRows (Cell.str "低环")) := by
    rw [lowDated, getCol?_setCol_ne _ _ (by decide), lowTimed,
      getCol?_mapCol_ne _ _ (by decide), stampProvenance,
      getCol?_setColConst_self, nRows_setColConst, nRows_fillMissing]
  rw [lowUnify, getColD, getCol?_selectCols (by decide), Option.getD_some,
    getColD, h5, Option.getD_some]

theorem getColD_twoUnify_tag (f d : String) (df : Table) :
    getColD (twoUnify f d df) "数据类型" = List.replicate df.nRows (Cell.str "二网") := by
  have h5 : getCol? (twoTimed f d df) "数据类型" =
      some (List.replicate df.nRows (Cell.str "二网")) := by
    rw [twoTimed, getCol?_mapCol_ne _ _ (by decide),
      getCol?_setColConst_ne _ _ (by decide), stampProvenance,
      getCol?_setColConst_self, nRows_setColConst, nRows_fillMissing]
  rw [twoUnify, getColD, getCol?_selectCols (by decide), Option.getD_some,
    getColD, h5, Option.getD_some]

theorem getColD_lowUnify_absent {c : String} {df : Table} (f : String)
    (hstd : c ∈ standardColumns) (habs : hasCol df c = false)
    (hsrc : c ≠ "源文件") (hknd : c ≠ "数据类型") (hdat : c ≠ "日期")
    (htim : c ≠ "数据时间") :
    getColD (lowUnify f df) c = List.replicate df.nRows Cell.null := by
  rw [lowUnify, getColD, getCol?_selectCols hstd, Option.getD_some, getColD,
    getCol?_lowDated_other f df hdat htim hsrc hknd,
    getCol?_fillMissing_absent hstd habs, Option.getD_some]

theorem getColD_twoUnify_absent {c : String} {df : Table} (f d : String)
    (hstd : c ∈ standardColumns) (habs : hasCol df c = false)
    (hsrc : c ≠ "源文件") (hknd : c ≠ "数据类型") (hdat : c ≠ "日期")
    (htim : c ≠ "数据时间") :
    getColD (twoUnify f d df) c = List.replicate df.nRows Cell.null := by
  rw [twoUnify, getColD, getCol?_selectCols hstd, Option.getD_some, getColD,
    getCol?_twoTimed_other f d df hdat htim hsrc hknd,
    getCol?_fillMissing_absent hstd habs, Option.getD_some]

theorem getColD_lowUnify_present {c : String} {df : Table} {v : List Cell}
    (f : String) (hstd : c ∈ standardColumns) (hpres : hasCol df c = true)
    (hsrc : c ≠ "源文件") (hknd : c ≠ "数据类型") (hdat : c ≠ "日期")
    (htim : c ≠ "数据时间") (hv : getCol? df c = some v) :
    getColD (lowUnify f df) c = v := by
  rw [lowUnify, getColD, getCol?_selectCols hstd, Option.getD_some, getColD,
    getCol?_lowDated_other f df hdat htim hsrc hknd,
    getCol?_fillMissing_present hpres, hv, Option.getD_some]

theorem getColD_twoUnify_present {c : String} {df : Table} {v : List Cell}
    (f d : String) (hstd : c ∈ standardColumns) (hpres : hasCol df c = true)
    (hsrc : c ≠ "源文件") (hknd : c ≠ "数据类型") (hdat : c ≠ "日期")
    (htim : c ≠ "数据时间") (hv : getCol? df c = some v) :
    getColD (twoUnify f d df) c = v := by
  rw [twoUnify, getColD, getCol?_selectCols hstd, Option.getD_some, getColD,
    getCol?_twoTimed_other f d df hdat htim hsrc hknd,
    getCol?_fillMissing_present hpres, hv, Option.getD_some]

theorem hasCol_of_getCol? {t : Table} {c : String} {v : List Cell}
    (h : getCol? t c = some v) : hasCol t c = true := by
  unfold getCol? at h
  cases hf : t.cols.find? (fun p => p.1 == c) with
  | none => rw [hf] at h; cases h
  | some q =>
    have hq : q.1 = c := by simpa using List.find?_some hf
    exact hasCol_iff_exists.mpr ⟨q, List.mem_of_find?_eq_some hf, hq⟩

/-- C5 (counterexample): a 低环 table carrying exactly the required columns
has no `源文件` column, yet after unification that canonical column is
filled with the source file name, not with nulls — so "every canonical
column absent from the originating source is present and filled with
nulls" fails. -/
theorem C5_counterexample :
    hasCol exampleLowTable "源文件" = false ∧
    (process_low_cycle_data "低环1.xlsx" exampleLowTable).map
      (fun t => getColD t "源文件") = .ok [Cell.str "低环1.xlsx"] ∧
    Cell.str "低环1.xlsx" ≠ Cell.null := by
  decide

/-- C5 (amended): for every raw table of either source category on which
unification succeeds, the unified output has exactly the 27 canonical
columns in canonical order, exactly the rows supplied (the row count is
preserved, every column having that length, and each canonical column
present in the source and not rewritten by the pipeline is carried over
verbatim), and every canonical column absent from the originating source —
other than the provenance columns `源文件`/`数据类型` and the derived
`日期`, which are stamped — is present and filled with nulls. -/
theorem C5_unified_schema (filename : String) (df : Table) (out : Table)
    (hwf : df.WF)
    (h : process_low_cycle_data filename df = .ok out ∨
      process_two_network_data filename df = .ok out) :
    colNames out = standardColumns ∧
    out.nRows = df.nRows ∧
    out.WF ∧
    (∀ c ∈ standardColumns, hasCol df c = false →
      c ≠ "源文件" → c ≠ "数据类型" → c ≠ "日期" →
      getColD out c = List.replicate df.nRows Cell.null) ∧
    (∀ c ∈ standardColumns,
      c ≠ "源文件" → c ≠ "数据类型" → c ≠ "日期" → c ≠ "数据时间" →
      ∀ v, getCol? df c = some v → getColD out c = v) := by
  rcases h with h | h
  · unfold process_low_cycle_data at h
    split at h
    · exact Except.noConfusion h
    · rename_i heq
      injection h with h'
      subst h'
      have hreq : ∀ c ∈ requiredLowColumns, hasCol df c = true := by
        intro c hc
        have hx := List.find?_eq_none.mp heq c hc
        simpa using hx
      have htime : hasCol df "数据时间" = true := hreq _ (by decide)
      refine ⟨by rw [lowUnify]; exact colNames_selectCols _ _,
        nRows_lowUnify .., WF_lowUnify hwf _, ?_, ?_⟩
      · intro c hc habs hsrc hknd hdat
        have htim : c ≠ "数据时间" := by
          intro hcc
          rw [hcc, htime] at habs
          cases habs
        exact getColD_lowUnify_absent filename hc habs hsrc hknd hdat htim
      · intro c hc hsrc hknd hdat htim v hv
        exact getColD_lowUnify_present filename hc (hasCol_of_getCol? hv)
          hsrc hknd hdat htim hv
  · unfold process_two_network_data at h
    split at h
    · exact Except.noConfusion h
    · rename_i heq
      split at h
      · exact Except.noConfusion h
      · rename_i d hdx
        injection h with h'
        subst h'
        have hreq : ∀ c ∈ requiredTwoColumns, hasCol df c = true := by
          intro c hc
          have hx := List.find?_eq_none.mp heq c hc
          simpa using hx
        have htime : hasCol df "数据时间" = true := hreq _ (by decide)
        refine ⟨by rw [twoUnify]; exact colNames_selectCols _ _,
          nRows_twoUnify .., WF_twoUnify hwf _ _, ?_, ?_⟩
        · intro c hc habs hsrc hknd hdat
          have htim : c ≠ "数据时间" := by
            intro hcc
            rw [hcc, htime] at habs
            cases habs
          exact getColD_twoUnify_absent filename d hc habs hsrc hknd hdat htim
        · intro c hc hsrc hknd hdat htim v hv
          exact getColD_twoUnify_present filename d hc (hasCol_of_getCol? hv)
            hsrc hknd hdat htim hv

/-- C5 (witness): the amended theorem applied to a concrete minimal 低环
table. -/
theorem C5_witness :
    exampleLowTable.WF ∧
    process_low_cycle_data "低环1.xlsx" exampleLowTable =
      .ok (lowUnify "低环1.xlsx" exampleLowTable) ∧
    (colNames (lowUnify "低环1.xlsx" exampleLowTable) = standardColumns ∧
     (lowUnify "低环1.xlsx" exampleLowTable).nRows = exampleLowTable.nRows ∧
     (lowUnify "低环1.xlsx" exampleLowTable).WF ∧
     (∀ c ∈ standardColumns, hasCol exampleLowTable c = false →
       c ≠ "源文件" → c ≠ "数据类型" → c ≠ "日期" →
       getColD (lowUnify "低环1.xlsx" exampleLowTable) c =
         List.replicate exampleLowTable.nRows Cell.null) ∧
     (∀ c ∈ standardColumns,
       c ≠ "源文件" → c ≠ "数据类型" → c ≠ "日期" → c ≠ "数据时间" →
       ∀ v, getCol? exampleLowTable c = some v →
         getColD (lowUnify "低环1.xlsx" exampleLowTable) c = v)) :=
  ⟨by decide, by decide,
    C5_unified_schema "低环1.xlsx" exampleLowTable _ (by decide) (Or.inl (by decide))⟩

/-- C6 (counterexample): a 二网 table missing the required `环路` column,
read from a file name with no `YYYY-MM-DD` substring, fails with the
missing-column error, not with the error naming the file — so "unification
fails with a SchemaError naming the file if and only if the source file
name contains no YYYY-MM-DD date substring" is false as stated (the
missing-column check runs first). -/
theorem C6_counterexample :
    extractDate "二网数据.xlsx" = none ∧
    process_two_network_data "二网数据.xlsx" missingLoopTable =
      .error (.missingCol "二网" "环路") ∧
    MergeError.missingCol "二网" "环路" ≠ MergeError.noDate "二网数据.xlsx" := by
  decide

/-- C6 (amended): unification fails with a `SchemaError` naming the missing
column if and only if some column required for the declared source category
is absent (the first such column in the required-list order is named); when
every required column is present, the second-category unification fails
with a `SchemaError` naming the file if and only if the file name contains
no `YYYY-MM-DD` substring; in all other cases unification succeeds.  The
missing-column check takes precedence over the file-name check. -/
theorem C6_schema_errors (filename : String) (df : Table) :
    (∀ c, requiredLowColumns.find? (fun c' => !hasCol df c') = some c →
      process_low_cycle_data filename df = .error (.missingCol "低环" c) ∧
      hasCol df c = false ∧ c ∈ requiredLowColumns) ∧
    ((∀ c ∈ requiredLowColumns, hasCol df c = true) →
      process_low_cycle_data filename df = .ok (lowUnify filename df)) ∧
    (∀ c, requiredTwoColumns.find? (fun c' => !hasCol df c') = some c →
      process_two_network_data filename df = .error (.missingCol "二网" c) ∧
      hasCol df c = false ∧ c ∈ requiredTwoColumns) ∧
    ((∀ c ∈ requiredTwoColumns, hasCol df c = true) →
      extractDate filename = none →
      process_two_network_data filename df = .error (.noDate filename)) ∧
    (∀ d, (∀ c ∈ requiredTwoColumns, hasCol df c = true) →
      extractDate filename = some d →
      process_two_network_data filename df = .ok (twoUnify filename d df)) := by
  have hlowNone : (∀ c ∈ requiredLowColumns, hasCol df c = true) →
      requiredLowColumns.find? (fun c' => !hasCol df c') = none := by
    intro hall
    rw [List.find?_eq_none]
    intro c hc
    rw [hall c hc]
    decide
  have htwoNone : (∀ c ∈ requiredTwoColumns, hasCol df c = true) →
      requiredTwoColumns.find? (fun c' => !hasCol df c') = none := by
    intro hall
    rw [List.find?_eq_none]
    intro c hc
    rw [hall c hc]
    decide
  refine ⟨?_, ?_, ?_, ?_, ?_⟩
  · intro c hc
    refine ⟨?_, ?_, List.mem_of_find?_eq_some hc⟩
    · unfold process_low_cycle_data
      rw [hc]
    · have := List.find?_some hc
      simpa using this
  · intro hall
    unfold process_low_cycle_data
    rw [hlowNone hall]
  · intro c hc
    refine ⟨?_, ?_, List.mem_of_find?_eq_some hc⟩
    · unfold process_two_network_data
      rw [hc]
    · have := List.find?_some hc
      simpa using this
  · intro hall hdate
    unfold process_two_network_data
    rw [htwoNone hall, hdate]
  · intro d hall hdate
    unfold process_two_network_data
    rw [htwoNone hall, hdate]

/-- C6 (witness): the amended theorem applied to a concrete 二网 table with
every required column, read from a date-less file name. -/
theorem C6_witness :
    (∀ c ∈ requiredTwoColumns, hasCol exampleTwoTable c = true) ∧
    extractDate "二网数据.xlsx" = none ∧
    process_two_network_data "二网数据.xlsx" exampleTwoTable =
      .error (.noDate "二网数据.xlsx") :=
  ⟨by decide, by decide,
    (C6_schema_errors "二网数据.xlsx" exampleTwoTable).2.2.2.1 (by decide) (by decide)⟩

theorem processAll_ok_forall₂ {f : String × Table → Except MergeError Table}
    {ps : List (String × Table)} {ts : List Table}
    (h : processAll f ps = .ok ts) :
    List.Forall₂ (fun p t => f p = .ok t) ps ts := by
  induction ps generalizing ts with
  | nil =>
    unfold processAll at h
    injection h with h'
    subst h'
    exact List.Forall₂.nil
  | cons p ps ih =>
    unfold processAll at h
    cases hf : f p with
    | error e => rw [hf] at h; exact Except.noConfusion h
    | ok t =>
      rw [hf] at h
      cases hr : processAll f ps with
      | error e => rw [hr] at h; exact Except.noConfusion h
      | ok ts' =>
        rw [hr] at h
        injection h with h'
        subst h'
        exact List.Forall₂.cons hf (ih hr)

theorem low_ok_props {f : String} {df out : Table}
    (h : process_low_cycle_data f df = .ok out) :
    colNames out = standardColumns ∧ out.nRows = df.nRows ∧
    getColD out "数据类型" = List.replicate df.nRows (Cell.str "低环") := by
  unfold process_low_cycle_data at h
  split at h
  · exact Except.noConfusion h
  · injection h with h'
    subst h'
    exact ⟨by rw [lowUnify]; exact colNames_selectCols _ _,
      nRows_lowUnify .., getColD_lowUnify_tag ..⟩

theorem two_ok_props {f : String} {df out : Table}
    (h : process_two_network_data f df = .ok out) :
    colNames out = standardColumns ∧ out.nRows = df.nRows ∧
    getColD out "数据类型" = List.replicate df.nRows (Cell.str "二网") := by
  unfold process_two_network_data at h
  split at h
  · exact Except.noConfusion h
  · split at h
    · exact Except.noConfusion h
    · injection h with h'
      subst h'
      exact ⟨by rw [twoUnify]; exact colNames_selectCols _ _,
        nRows_twoUnify .., getColD_twoUnify_tag ..⟩

theorem hasCol_iff_mem_colNames {t : Table} {c : String} :
    hasCol t c = true ↔ c ∈ colNames t := by
  rw [hasCol_iff_exists, colNames]
  constructor
  · rintro ⟨p, hp, rfl⟩
    exact List.mem_map.mpr ⟨p, hp, rfl⟩
  · intro h
    obtain ⟨p, hp, rfl⟩ := List.mem_map.mp h
    exact ⟨p, hp, rfl⟩

theorem nRows_concatTables (t : Table) (ts : List Table) :
    (concatTables (t :: ts)).nRows = ((t :: ts).map Table.nRows).sum := rfl

theorem colNames_concatTables (t : Table) (ts : List Table) :
    colNames (concatTables (t :: ts)) = colNames t := by
  simp only [concatTables, colNames, List.map_map]
  have hid : (Prod.fst ∘ fun p : String × List Cell =>
      (p.1, ((t :: ts).map (fun u => getColD u p.1)).flatten)) = Prod.fst := by
    funext p; rfl
  rw [hid]

theorem getColD_concatTables {t : Table} {c : String} (ts : List Table)
    (h : hasCol t c = true) :
    getColD (concatTables (t :: ts)) c =
      ((t :: ts).map (fun u => getColD u c)).flatten := by
  unfold getColD getCol? concatTables
  rw [find?_fst_map (fun p => (p.1, ((t :: ts).map (fun u => getColD u p.1)).flatten))
    (fun p => rfl)]
  have h2 : (t.cols.find? (fun p => p.1 == c)).isSome := by
    rw [List.find?_isSome]
    simpa [hasCol, List.any_eq_true] using h
  obtain ⟨q, hq⟩ := Option.isSome_iff_exists.mp h2
  have hqc : q.1 = c := by simpa using List.find?_some hq
  rw [hq]
  subst hqc
  rfl

theorem low_chain {lows : List (String × Table)} {ls : List Table}
    (h : List.Forall₂ (fun p t => process_low_cycle_data p.1 p.2 = .ok t) lows ls) :
    (ls.map Table.nRows).sum = (lows.map (fun p => p.2.nRows)).sum ∧
    ((ls.map (fun u => getColD u "数据类型")).flatten).count (Cell.str "低环") =
      (lows.map (fun p => p.2.nRows)).sum ∧
    ((ls.map (fun u => getColD u "数据类型")).flatten).count (Cell.str "二网") = 0 ∧
    ∀ l ∈ ls, colNames l = standardColumns := by
  induction h with
  | nil => simp
  | cons hpt hrest ih =>
    obtain ⟨hcols, hrows, htag⟩ := low_ok_props hpt
    obtain ⟨ih1, ih2, ih3, ih4⟩ := ih
    refine ⟨?_, ?_, ?_, ?_⟩
    · simp only [List.map_cons, List.sum_cons, hrows, ih1]
    · simp only [List.map_cons, List.flatten_cons, List.count_append, htag, ih2,
        List.count_replicate]
      simp
    · simp only [List.map_cons, List.flatten_cons, List.count_append, htag, ih3,
        List.count_replicate]
      simp
    · intro l hl
      rcases List.mem_cons.mp hl with rfl | hl
      · exact hcols
      · exact ih4 l hl

theorem two_chain {twos : List (String × Table)} {ts : List Table}
    (h : List.Forall₂ (fun p t => process_two_network_data p.1 p.2 = .ok t) twos ts) :
    (ts.map Table.nRows).sum = (twos.map (fun p => p.2.nRows)).sum ∧
    ((ts.map (fun u => getColD u "数据类型")).flatten).count (Cell.str "二网") =
      (twos.map (fun p => p.2.nRows)).sum ∧
    ((ts.map (fun u => getColD u "数据类型")).flatten).count (Cell.str "低环") = 0 ∧
    ∀ l ∈ ts, colNames l = standardColumns := by
  induction h with
  | nil => simp
  | cons hpt hrest ih =>
    obtain ⟨hcols, hrows, htag⟩ := two_ok_props hpt
    obtain ⟨ih1, ih2, ih3, ih4⟩ := ih
    refine ⟨?_, ?_, ?_, ?_⟩
    · simp only [List.map_cons, List.sum_cons, hrows, ih1]
    · simp only [List.map_cons, List.flatten_cons, List.count_append, htag, ih2,
        List.count_replicate]
      simp
    · simp only [List.map_cons, List.flatten_cons, List.count_append, htag, ih3,
        List.count_replicate]
      simp
    · intro l hl
      rcases List.mem_cons.mp hl with rfl | hl
      · exact hcols
      · exact ih4 l hl

/-- C7 (confirmed): merging N category-A (低环) rows and M category-B
(二网) rows yields a master table of exactly N + M rows, with exactly N
rows tagged 低环 and exactly M tagged 二网, and — category by category —
every canonical column of the master is the concatenation, in input order,
of that column over the unified per-file tables (低环 files first), so the
input row order is preserved within each category. -/
theorem C7_merge_conservation (lows twos : List (String × Table))
    (ls ts : List Table)
    (hlne : lows ≠ []) (htne : twos ≠ [])
    (hls : processAll (fun p => process_low_cycle_data p.1 p.2) lows = .ok ls)
    (hts : processAll (fun p => process_two_network_data p.1 p.2) twos = .ok ts) :
    merge_all_data lows twos =
      .ok (concatTables [concatTables ls, concatTables ts]) ∧
    (concatTables [concatTables ls, concatTables ts]).nRows =
      (lows.map (fun p => p.2.nRows)).sum + (twos.map (fun p => p.2.nRows)).sum ∧
    (getColD (concatTables [concatTables ls, concatTables ts]) "数据类型").count
        (Cell.str "低环") = (lows.map (fun p => p.2.nRows)).sum ∧
    (getColD (concatTables [concatTables ls, concatTables ts]) "数据类型").count
        (Cell.str "二网") = (twos.map (fun p => p.2.nRows)).sum ∧
    (∀ c ∈ standardColumns,
      getColD (concatTables [concatTables ls, concatTables ts]) c =
        (ls.map (fun u => getColD u c)).flatten ++
          (ts.map (fun u => getColD u c)).flatten) := by
  have hf2l := processAll_ok_forall₂ hls
  have hf2t := processAll_ok_forall₂ hts
  obtain ⟨hsuml, htagl, hnotl, hcolsl⟩ := low_chain hf2l
  obtain ⟨hsumt, htagt, hnott, hcolst⟩ := two_chain hf2t
  obtain ⟨l0, ls', rfl⟩ : ∃ a as, ls = a :: as := by
    cases ls with
    | nil =>
      cases lows with
      | nil => exact absurd rfl hlne
      | cons p ps => cases hf2l
    | cons a as => exact ⟨a, as, rfl⟩
  obtain ⟨t0, ts', rfl⟩ : ∃ a as, ts = a :: as := by
    cases ts with
    | nil =>
      cases twos with
      | nil => exact absurd rfl htne
      | cons p ps => cases hf2t
    | cons a as => exact ⟨a, as, rfl⟩
  have hl0 : colNames l0 = standardColumns := hcolsl l0 (List.mem_cons_self ..)
  have ht0 : colNames t0 = standardColumns := hcolst t0 (List.mem_cons_self ..)
  have hlowCnames : colNames (concatTables (l0 :: ls')) = standardColumns := by
    rw [colNames_concatTables, hl0]
  have hasLowC : ∀ c ∈ standardColumns, hasCol (concatTables (l0 :: ls')) c = true := by
    intro c hc
    rw [hasCol_iff_mem_colNames, hlowCnames]
    exact hc
  have hasL0 : ∀ c ∈ standardColumns, hasCol l0 c = true := by
    intro c hc
    rw [hasCol_iff_mem_colNames, hl0]
    exact hc
  have hasT0 : ∀ c ∈ standardColumns, hasCol t0 c = true := by
    intro c hc
    rw [hasCol_iff_mem_colNames, ht0]
    exact hc
  have hmaster : ∀ c ∈ standardColumns,
      getColD (concatTables [concatTables (l0 :: ls'), concatTables (t0 :: ts')]) c =
        ((l0 :: ls').map (fun u => getColD u c)).flatten ++
          ((t0 :: ts').map (fun u => getColD u c)).flatten := by
    intro c hc
    rw [getColD_concatTables [concatTables (t0 :: ts')] (hasLowC c hc)]
    simp only [List.map_cons, List.map_nil, List.flatten_cons, List.flatten_nil,
      List.append_nil]
    rw [getColD_concatTables ls' (hasL0 c hc), getColD_concatTables ts' (hasT0 c hc)]
    simp [List.flatten_cons, List.append_assoc]
  have hle : lows.isEmpty = false := by
    cases lows with
    | nil => exact absurd rfl hlne
    | cons _ _ => rfl
  have hte : twos.isEmpty = false := by
    cases twos with
    | nil => exact absurd rfl htne
    | cons _ _ => rfl
  refine ⟨?_, ?_, ?_, ?_, hmaster⟩
  · unfold merge_all_data
    rw [hle, hte, hls, hts]
    rfl
  · rw [nRows_concatTables]
    simp only [List.map_cons, List.map_nil, List.sum_cons, List.sum_nil]
    rw [nRows_concatTables, nRows_concatTables, hsuml, hsumt]
    omega
  · rw [hmaster "数据类型" (by decide), List.count_append, htagl, hnott]
    omega
  · rw [hmaster "数据类型" (by decide), List.count_append, hnotl, htagt]
    omega

/-- C7 (witness): the theorem applied to one concrete file per category. -/
theorem C7_witness :
    processAll (fun p => process_low_cycle_data p.1 p.2) exLows =
      .ok [lowUnify "低环数据.xlsx" exampleLowTable] ∧
    processAll (fun p => process_two_network_data p.1 p.2) exTwos =
      .ok [twoUnify "二网数据2023-11-20.xlsx" "2023-11-20" exampleTwoTable] ∧
    merge_all_data exLows exTwos = .ok (concatTables
      [concatTables [lowUnify "低环数据.xlsx" exampleLowTable],
       concatTables [twoUnify "二网数据2023-11-20.xlsx" "2023-11-20" exampleTwoTable]]) ∧
    (concatTables
      [concatTables [lowUnify "低环数据.xlsx" exampleLowTable],
       concatTables [twoUnify "二网数据2023-11-20.xlsx" "2023-11-20" exampleTwoTable]]).nRows =
      (exLows.map (fun p => p.2.nRows)).sum + (exTwos.map (fun p => p.2.nRows)).sum :=
  ⟨by decide, by decide,
   (C7_merge_conservation exLows exTwos _ _ (by decide) (by decide)
     (by decide) (by decide)).1,
   (C7_merge_conservation exLows exTwos _ _ (by decide) (by decide)
     (by decide) (by decide)).2.1⟩

/-! ### Resampler lemmas -/

theorem foldl_min_le (l : List ℕ) (a : ℕ) :
    l.foldl min a ≤ a ∧ ∀ y ∈ l, l.foldl min a ≤ y := by
  induction l generalizing a with
  | nil => exact ⟨le_refl a, fun y hy => absurd hy (List.not_mem_nil y)⟩
  | cons b l ih =>
    refine ⟨?_, ?_⟩
    · exact le_trans (ih (min a b)).1 (min_le_left a b)
    · intro y hy
      rcases List.mem_cons.mp hy with rfl | hy
      · exact le_trans (ih (min a y)).1 (min_le_right a y)
      · exact (ih (min a b)).2 y hy

theorem foldl_max_ge (l : List ℕ) (a : ℕ) :
    a ≤ l.foldl max a ∧ ∀ y ∈ l, y ≤ l.foldl max a := by
  induction l generalizing a with
  | nil => exact ⟨le_refl a, fun y hy => absurd hy (List.not_mem_nil y)⟩
  | cons b l ih =>
    refine ⟨?_, ?_⟩
    · exact le_trans (le_max_left a b) (ih (max a b)).1
    · intro y hy
      rcases List.mem_cons.mp hy with rfl | hy
      · exact le_trans (le_max_right a y) (ih (max a y)).1
      · exact (ih (max a b)).2 y hy

theorem listMin?_le {l : List ℕ} {m : ℕ} (h : listMin? l = some m) :
    ∀ x ∈ l, m ≤ x := by
  cases l with
  | nil => cases h
  | cons a l =>
    injection h with h'
    subst h'
    intro x hx
    rcases List.mem_cons.mp hx with rfl | hx
    · exact (foldl_min_le l x).1
    · exact (foldl_min_le l a).2 x hx

theorem listMax?_ge {l : List ℕ} {m : ℕ} (h : listMax? l = some m) :
    ∀ x ∈ l, x ≤ m := by
  cases l with
  | nil => cases h
  | cons a l =>
    injection h with h'
    subst h'
    intro x hx
    rcases List.mem_cons.mp hx with rfl | hx
    · exact (foldl_max_ge l x).1
    · exact (foldl_max_ge l a).2 x hx

theorem insertKey_perm (k : String × String) (l : List (String × String)) :
    (insertKey k l).Perm (k :: l) := by
  induction l with
  | nil => exact List.Perm.refl _
  | cons x xs ih =>
    unfold insertKey
    split
    · exact List.Perm.refl _
    · exact List.Perm.trans (List.Perm.cons x ih) (List.Perm.swap k x xs)

theorem sortKeys_perm (l : List (String × String)) : (sortKeys l).Perm l := by
  induction l with
  | nil => exact List.Perm.refl _
  | cons x xs ih =>
    unfold sortKeys
    exact List.Perm.trans (insertKey_perm x (sortKeys xs)) (List.Perm.cons x ih)

theorem groupKeys_nodup (rows : List RawRow) : (groupKeys rows).Nodup :=
  ((sortKeys_perm (rows.map keyOf).dedup).nodup_iff).mpr (List.nodup_dedup _)

theorem groupKeys_mem {rows : List RawRow} {k : String × String} :
    k ∈ groupKeys rows ↔ k ∈ rows.map keyOf :=
  ((sortKeys_perm (rows.map keyOf).dedup).mem_iff).trans List.mem_dedup

theorem lookup_graph {α β : Type} [BEq α] [LawfulBEq α] (g : α → β)
    (l : List α) (a : α) :
    (l.map (fun x => (x, g x))).lookup a = if a ∈ l then some (g a) else none := by
  induction l with
  | nil => simp [List.lookup]
  | cons x l ih =>
    by_cases hax : a = x
    · subst hax
      simp [List.lookup]
    · have hbeq : (a == x) = false := beq_eq_false_iff_ne.mpr hax
      simp [List.lookup, hbeq, ih, hax]

theorem hourRange_length (a b : ℕ) : (hourRange a b).length = (b - a) / 60 + 1 := by
  simp [hourRange]

theorem hourRange_nodup (a b : ℕ) : (hourRange a b).Nodup := by
  rw [hourRange]
  refine (List.nodup_range _).map ?_
  intro i j hij
  simp only at hij
  omega

theorem mem_hourRange {a b h : ℕ} (ha : a % 60 = 0) (hh : h % 60 = 0)
    (h1 : a ≤ h) (h2 : h ≤ b) : h ∈ hourRange a b := by
  rw [hourRange]
  refine List.mem_map.mpr ⟨(h - a) / 60, ?_, ?_⟩
  · rw [List.mem_range]
    exact Nat.lt_succ_of_le (Nat.div_le_div_right (Nat.sub_le_sub_right h2 a))
  · omega

theorem hourRange_aligned {a b h : ℕ} (ha : a % 60 = 0)
    (hmem : h ∈ hourRange a b) : h % 60 = 0 := by
  rw [hourRange] at hmem
  obtain ⟨i, -, rfl⟩ := List.mem_map.mp hmem
  omega

theorem floorHour_mono {s t : ℕ} (h : s ≤ t) : floorHour s ≤ floorHour t := by
  unfold floorHour
  exact Nat.mul_le_mul_left 60 (Nat.div_le_div_right h)

theorem floorHour_mod (t : ℕ) : floorHour t % 60 = 0 := by
  unfold floorHour
  omega

theorem ceilHour_mod (t : ℕ) : ceilHour t % 60 = 0 := by
  unfold ceilHour
  omega

theorem floorHour_le_ceilHour {s t : ℕ} (h : s ≤ t) : floorHour s ≤ ceilHour t := by
  unfold floorHour ceilHour
  omega

theorem listMin?_exists {l : List ℕ} (h : l ≠ []) : ∃ m, listMin? l = some m := by
  cases l with
  | nil => exact absurd rfl h
  | cons a l => exact ⟨_, rfl⟩

theorem listMax?_exists {l : List ℕ} (h : l ≠ []) : ∃ m, listMax? l = some m := by
  cases l with
  | nil => exact absurd rfl h
  | cons a l => exact ⟨_, rfl⟩

theorem groupBlock_key {df : RawFrame} {TL : List ℕ} {k : String × String} :
    ∀ r ∈ groupBlock df TL k, r.key = some k := by
  intro r hr
  obtain ⟨h, -, rfl⟩ := List.mem_map.mp hr
  rfl

theorem filter_flatMap_groupBlock (df : RawFrame) (TL : List ℕ)
    (KS : List (String × String)) (k : String × String)
    (hk : k ∈ KS) (hnd : KS.Nodup) :
    (KS.flatMap (groupBlock df TL)).filter (fun r => r.key == some k) =
      groupBlock df TL k := by
  induction KS with
  | nil => cases hk
  | cons k0 KS ih =>
    rw [List.flatMap_cons, List.filter_append]
    rcases List.mem_cons.mp hk with rfl | hk'
    · have h1 : (groupBlock df TL k).filter (fun r => r.key == some k) =
          groupBlock df TL k := by
        rw [List.filter_eq_self]
        intro r hr
        rw [groupBlock_key r hr]
        exact beq_self_eq_true _
      have hknotin : k ∉ KS := (List.nodup_cons.mp hnd).1
      have h2 : (KS.flatMap (groupBlock df TL)).filter
          (fun r => r.key == some k) = [] := by
        rw [List.filter_eq_nil_iff]
        intro r hr hcontra
        obtain ⟨k', hk', hrmem⟩ := List.mem_flatMap.mp hr
        rw [groupBlock_key r hrmem] at hcontra
        have hkk : k' = k := by simpa using hcontra
        exact hknotin (hkk ▸ hk')
      rw [h1, h2, List.append_nil]
    · have hne : k0 ≠ k := fun he => (List.nodup_cons.mp hnd).1 (he ▸ hk')
      have h1 : (groupBlock df TL k0).filter (fun r => r.key == some k) = [] := by
        rw [List.filter_eq_nil_iff]
        intro r hr hcontra
        rw [groupBlock_key r hr] at hcontra
        exact hne (by simpa using hcontra)
      rw [h1, List.nil_append]
      exact ih hk' (List.nodup_cons.mp hnd).2

theorem filter_beq_of_nodup {l : List ℕ} (hnd : l.Nodup) {h : ℕ} (hm : h ∈ l) :
    l.filter (fun x => x == h) = [h] := by
  induction l with
  | nil => cases hm
  | cons a l ih =>
    rw [List.filter_cons]
    rcases List.mem_cons.mp hm with rfl | hm'
    · rw [if_pos (beq_self_eq_true _)]
      have hrest : l.filter (fun x => x == h) = [] := by
        rw [List.filter_eq_nil_iff]
        intro x hx hbeq
        have hxa : x = h := by simpa using hbeq
        exact (List.nodup_cons.mp hnd).1 (hxa ▸ hx)
      rw [hrest]
    · have hne : (a == h) = false :=
        beq_eq_false_iff_ne.mpr (fun he => (List.nodup_cons.mp hnd).1 (he ▸ hm'))
      rw [if_neg (by simp [hne])]
      exact ih (List.nodup_cons.mp hnd).2 hm'

theorem reindexVal_resampleGroup (rows : List RawRow) (cols : List String)
    {c : String} (hc : c ∈ cols) {h : ℕ} (hh : h % 60 = 0) :
    reindexVal (resampleGroup rows cols) h c = meanOpt (bucketVals rows h c) := by
  cases rows with
  | nil => rfl
  | cons r0 rest =>
    have hmn : listMin? ((r0 :: rest).map RawRow.datetime) =
        some ((rest.map RawRow.datetime).foldl min r0.datetime) := rfl
    have hmx : listMax? ((r0 :: rest).map RawRow.datetime) =
        some ((rest.map RawRow.datetime).foldl max r0.datetime) := rfl
    have hrg : resampleGroup (r0 :: rest) cols =
        (hourRange (floorHour ((rest.map RawRow.datetime).foldl min r0.datetime))
            (floorHour ((rest.map RawRow.datetime).foldl max r0.datetime))).map
          (fun h' => (h', cols.map (fun c' => (c', meanOpt (bucketVals (r0 :: rest) h' c'))))) := rfl
    rw [hrg]
    unfold reindexVal
    rw [lookup_graph (fun h' => cols.map (fun c' => (c', meanOpt (bucketVals (r0 :: rest) h' c'))))]
    by_cases hmem : h ∈ hourRange (floorHour ((rest.map RawRow.datetime).foldl min r0.datetime))
        (floorHour ((rest.map RawRow.datetime).foldl max r0.datetime))
    · rw [if_pos hmem, Option.some_bind,
        lookup_graph (fun c' => meanOpt (bucketVals (r0 :: rest) h c')), if_pos hc]
      rfl
    · rw [if_neg hmem]
      have hempty : bucketVals (r0 :: rest) h c = [] := by
        have hfil : (r0 :: rest).filter (fun r => floorHour r.datetime == h) = [] := by
          rw [List.filter_eq_nil_iff]
          intro r hr hcontra
          have hfh : floorHour r.datetime = h := by simpa using hcontra
          have hlo : floorHour ((rest.map RawRow.datetime).foldl min r0.datetime) ≤ h := by
            rw [← hfh]
            exact floorHour_mono
              (listMin?_le hmn r.datetime (List.mem_map_of_mem RawRow.datetime hr))
          have hhi : h ≤ floorHour ((rest.map RawRow.datetime).foldl max r0.datetime) := by
            rw [← hfh]
            exact floorHour_mono
              (listMax?_ge hmx r.datetime (List.mem_map_of_mem RawRow.datetime hr))
          exact hmem (mem_hourRange (floorHour_mod _) hh hlo hhi)
        rw [bucketVals, hfil]
        rfl
      rw [hempty]
      rfl

theorem resample_data_grouped (df : RawFrame) (mn mx : ℕ)
    (hmn : listMin? (df.rows.map RawRow.datetime) = some mn)
    (hmx : listMax? (df.rows.map RawRow.datetime) = some mx)
    (hae : (availableCols df).isEmpty = false)
    (hlf : (df.cols.contains "位置" && df.cols.contains "楼层") = true) :
    resample_data df = some (.resampled ((groupKeys df.rows).flatMap
      (groupBlock df (hourRange (floorHour mn) (ceilHour mx))))) := by
  unfold resample_data
  rw [hae, hmn, hmx, hlf]
  rfl

/-- C9 (confirmed): if the frame contains none of the four recognized
measurement columns, `_resample_data` returns the input frame unchanged —
no bucketing, grouping or reindexing happens. -/
theorem C9_no_measurement_passthrough (df : RawFrame)
    (h : ∀ c ∈ valueColumns, c ∉ df.cols) :
    resample_data df = some (.raw df) := by
  have hav : (availableCols df).isEmpty = true := by
    rw [availableCols, List.isEmpty_iff, List.filter_eq_nil_iff]
    intro c hc hcon
    exact h c hc (List.elem_iff.mp hcon)
  unfold resample_data
  rw [hav]
  rfl

/-- C9 (witness): the theorem applied to a concrete frame with no
measurement columns. -/
theorem C9_witness :
    (∀ c ∈ valueColumns, c ∉ noMeasFrame.cols) ∧
    resample_data noMeasFrame = some (.raw noMeasFrame) :=
  ⟨by decide, C9_no_measurement_passthrough noMeasFrame (by decide)⟩

/-- C1 (confirmed): for a frame with the key columns, at least one
measurement column and a datetime column (modelled as parsed instants),
the grouped resampler's output has, for every (位置, 楼层) key present in
the input, exactly one row per instant of the single global hourly
timeline from `floor(min)` to `ceil(max)` of the whole frame: the filtered
rows of each key enumerate that timeline exactly, so every key's series has
length `(ceil(max) - floor(min)) / 60 + 1` — whole hours plus one — and a
key with data in only some hours still has (missing-valued) rows at every
other timeline instant. -/
theorem C1_global_timeline (df : RawFrame) (out : List RRow)
    (k : String × String)
    (hloc : "位置" ∈ df.cols) (hfl : "楼层" ∈ df.cols)
    (havail : ∃ c ∈ valueColumns, c ∈ df.cols)
    (hk : k ∈ df.rows.map keyOf)
    (hres : resample_data df = some (.resampled out)) :
    ∃ mn mx, listMin? (df.rows.map RawRow.datetime) = some mn ∧
      listMax? (df.rows.map RawRow.datetime) = some mx ∧
      (out.filter (fun r => r.key == some k)).map RRow.time =
        hourRange (floorHour mn) (ceilHour mx) ∧
      (out.filter (fun r => r.key == some k)).length =
        (ceilHour mx - floorHour mn) / 60 + 1 := by
  have hne : df.rows ≠ [] := by
    intro h0
    rw [h0] at hk
    simp at hk
  obtain ⟨mn, hmn⟩ := listMin?_exists
    (fun hx : df.rows.map RawRow.datetime = [] => hne (List.map_eq_nil_iff.mp hx))
  obtain ⟨mx, hmx⟩ := listMax?_exists
    (fun hx : df.rows.map RawRow.datetime = [] => hne (List.map_eq_nil_iff.mp hx))
  have hae : (availableCols df).isEmpty = false := by
    obtain ⟨c0, hc0v, hc0⟩ := havail
    have hmem : c0 ∈ availableCols df := by
      rw [availableCols, List.mem_filter]
      exact ⟨hc0v, List.elem_iff.mpr hc0⟩
    cases hax : (availableCols df).isEmpty
    · rfl
    · rw [List.isEmpty_iff.mp hax] at hmem
      cases hmem
  have hlf : (df.cols.contains "位置" && df.cols.contains "楼层") = true := by
    rw [Bool.and_eq_true]
    exact ⟨List.elem_iff.mpr hloc, List.elem_iff.mpr hfl⟩
  have heq := resample_data_grouped df mn mx hmn hmx hae hlf
  rw [heq] at hres
  injection hres with h1
  injection h1 with h2
  subst h2
  rw [filter_flatMap_groupBlock df _ _ k (groupKeys_mem.mpr hk) (groupKeys_nodup _)]
  refine ⟨mn, mx, hmn, hmx, ?_, ?_⟩
  · rw [groupBlock, List.map_map]
    have hid : (RRow.time ∘ fun h =>
        (⟨h, some k, (availableCols df).map (fun c =>
          (c, reindexVal
            (resampleGroup (df.rows.filter (fun r => keyOf r == k)) (availableCols df))
            h c))⟩ : RRow)) = id := by
      funext h
      rfl
    rw [hid, List.map_id]
  · rw [groupBlock, List.length_map, hourRange_length]

/-- C1 (witness): the theorem applied to a concrete two-row frame whose
key has data only in the first of the two global timeline hours. -/
theorem C1_witness :
    ("位置" ∈ exRawFrame.cols ∧ "楼层" ∈ exRawFrame.cols ∧
      (∃ c ∈ valueColumns, c ∈ exRawFrame.cols) ∧
      ("A", "1") ∈ exRawFrame.rows.map keyOf ∧
      resample_data exRawFrame = some (.resampled
        ((groupKeys exRawFrame.rows).flatMap
          (groupBlock exRawFrame (hourRange 0 60))))) ∧
    (∃ mn mx, listMin? (exRawFrame.rows.map RawRow.datetime) = some mn ∧
      listMax? (exRawFrame.rows.map RawRow.datetime) = some mx ∧
      ((((groupKeys exRawFrame.rows).flatMap
          (groupBlock exRawFrame (hourRange 0 60))).filter
            (fun r => r.key == some ("A", "1"))).map RRow.time =
        hourRange (floorHour mn) (ceilHour mx)) ∧
      (((groupKeys exRawFrame.rows).flatMap
          (groupBlock exRawFrame (hourRange 0 60))).filter
            (fun r => r.key == some ("A", "1"))).length =
        (ceilHour mx - floorHour mn) / 60 + 1) :=
  ⟨⟨by decide, by decide, ⟨"室温温度(℃)", by decide, by decide⟩, by decide,
    resample_data_grouped exRawFrame 0 30 (by decide) (by decide)
      (by decide) (by decide)⟩,
    C1_global_timeline exRawFrame _ ("A", "1") (by decide) (by decide)
      ⟨"室温温度(℃)", by decide, by decide⟩ (by decide)
      (resample_data_grouped exRawFrame 0 30 (by decide) (by decide)
        (by decide) (by decide))⟩

/-- C4 (confirmed): in the grouped resampled output, for every key present,
every global-timeline hour and every available measurement column, the
unique row of that key at that hour carries exactly the arithmetic mean of
the non-missing raw values of that key falling in that hour — missing
values are ignored, and the bucket is missing exactly when no non-missing
value falls in the hour (`meanOpt` of the non-missing values). -/
theorem C4_bucket_mean (df : RawFrame) (out : List RRow)
    (k : String × String) (h : ℕ) (c : String) (mn mx : ℕ)
    (hloc : "位置" ∈ df.cols) (hfl : "楼层" ∈ df.cols)
    (hcv : c ∈ valueColumns) (hcc : c ∈ df.cols)
    (hk : k ∈ df.rows.map keyOf)
    (hmn : listMin? (df.rows.map RawRow.datetime) = some mn)
    (hmx : listMax? (df.rows.map RawRow.datetime) = some mx)
    (hh : h ∈ hourRange (floorHour mn) (ceilHour mx))
    (hres : resample_data df = some (.resampled out)) :
    (out.filter (fun r => r.time == h && r.key == some k)).map
        (fun r => r.vals.lookup c) =
      [some (meanOpt (bucketVals (df.rows.filter (fun r => keyOf r == k)) h c))] := by
  have hae : (availableCols df).isEmpty = false := by
    have hmem : c ∈ availableCols df := by
      rw [availableCols, List.mem_filter]
      exact ⟨hcv, List.elem_iff.mpr hcc⟩
    cases hax : (availableCols df).isEmpty
    · rfl
    · rw [List.isEmpty_iff.mp hax] at hmem
      cases hmem
  have hca : c ∈ availableCols df := by
    rw [availableCols, List.mem_filter]
    exact ⟨hcv, List.elem_iff.mpr hcc⟩
  have hlf : (df.cols.contains "位置" && df.cols.contains "楼层") = true := by
    rw [Bool.and_eq_true]
    exact ⟨List.elem_iff.mpr hloc, List.elem_iff.mpr hfl⟩
  have heq := resample_data_grouped df mn mx hmn hmx hae hlf
  rw [heq] at hres
  injection hres with h1
  injection h1 with h2
  subst h2
  rw [← List.filter_filter,
    filter_flatMap_groupBlock df _ _ k (groupKeys_mem.mpr hk) (groupKeys_nodup _),
    groupBlock, List.filter_map]
  have hcomp : ((fun r : RRow => r.time == h) ∘ fun h' =>
      (⟨h', some k, (availableCols df).map (fun c' =>
        (c', reindexVal
          (resampleGroup (df.rows.filter (fun r => keyOf r == k)) (availableCols df))
          h' c'))⟩ : RRow)) = fun h' => h' == h := by
    funext h'
    rfl
  rw [hcomp, filter_beq_of_nodup (hourRange_nodup _ _) hh, List.map_cons, List.map_nil,
    List.map_cons, List.map_nil]
  have hlook : ((⟨h, some k, (availableCols df).map (fun c' =>
      (c', reindexVal
        (resampleGroup (df.rows.filter (fun r => keyOf r == k)) (availableCols df))
        h c'))⟩ : RRow)).vals.lookup c =
      some (reindexVal
        (resampleGroup (df.rows.filter (fun r => keyOf r == k)) (availableCols df))
        h c) := by
    show ((availableCols df).map (fun c' =>
      (c', reindexVal
        (resampleGroup (df.rows.filter (fun r => keyOf r == k)) (availableCols df))
        h c'))).lookup c = _
    rw [lookup_graph (fun c' => reindexVal
      (resampleGroup (df.rows.filter (fun r => keyOf r == k)) (availableCols df)) h c'),
      if_pos hca]
  rw [hlook, reindexVal_resampleGroup _ _ hca (hourRange_aligned (floorHour_mod mn) hh)]

/-- C4 (witness): three readings 10, 20, 30 of one key within one hour
resample to exactly 20 for that hour. -/
theorem C4_witness :
    (("位置" ∈ exMeanFrame.cols ∧ "楼层" ∈ exMeanFrame.cols ∧
      "室温温度(℃)" ∈ valueColumns ∧ "室温温度(℃)" ∈ exMeanFrame.cols ∧
      ("A", "1") ∈ exMeanFrame.rows.map keyOf ∧
      listMin? (exMeanFrame.rows.map RawRow.datetime) = some 0 ∧
      listMax? (exMeanFrame.rows.map RawRow.datetime) = some 20 ∧
      (0 : ℕ) ∈ hourRange (floorHour 0) (ceilHour 20) ∧
      resample_data exMeanFrame = some (.resampled
        ((groupKeys exMeanFrame.rows).flatMap
          (groupBlock exMeanFrame (hourRange 0 60))))) ∧
    ((((groupKeys exMeanFrame.rows).flatMap
        (groupBlock exMeanFrame (hourRange 0 60))).filter
          (fun r => r.time == 0 && r.key == some ("A", "1"))).map
        (fun r => r.vals.lookup "室温温度(℃)") =
      [some (some (20 : ℚ))])) :=
  ⟨⟨by decide, by decide, by decide, by decide, by decide, by decide, by decide,
    by decide,
    resample_data_grouped exMeanFrame 0 20 (by decide) (by decide)
      (by decide) (by decide)⟩,
   (C4_bucket_mean exMeanFrame _ ("A", "1") 0 "室温温度(℃)" 0 20
      (by decide) (by decide) (by decide) (by decide) (by decide) (by decide)
      (by decide) (by decide)
      (resample_data_grouped exMeanFrame 0 20 (by decide) (by decide)
        (by decide) (by decide))).trans
    (by
      have hb : bucketVals
          (exMeanFrame.rows.filter (fun r => keyOf r == ("A", "1"))) 0 "室温温度(℃)" =
          [10, 20, 30] := by decide
      rw [hb]
      simp only [meanOpt, List.isEmpty_cons, List.sum_cons, List.sum_nil,
        List.length_cons, List.length_nil, if_false]
      norm_num)⟩

/-! ### Smoothing lemmas -/

theorem gaussianPDFReal_even (x : ℝ) :
    ProbabilityTheory.gaussianPDFReal 0 1 (-x) =
      ProbabilityTheory.gaussianPDFReal 0 1 x := by
  simp [ProbabilityTheory.gaussianPDFReal, neg_sq]

theorem stdNormalCDF_zero : stdNormalCDF 0 = 1 / 2 := by
  have hint : MeasureTheory.Integrable (ProbabilityTheory.gaussianPDFReal 0 1) :=
    ProbabilityTheory.integrable_gaussianPDFReal 0 1
  have hsplit : stdNormalCDF 0 + ∫ x in Set.Ioi (0 : ℝ),
      ProbabilityTheory.gaussianPDFReal 0 1 x = 1 := by
    rw [stdNormalCDF]
    rw [show Set.Ioi (0 : ℝ) = (Set.Iic (0 : ℝ))ᶜ by rw [Set.compl_Iic]]
    rw [MeasureTheory.integral_add_compl measurableSet_Iic hint]
    exact ProbabilityTheory.integral_gaussianPDFReal_eq_one 0 (by norm_num)
  have hsymm : (∫ x in Set.Ioi (0 : ℝ), ProbabilityTheory.gaussianPDFReal 0 1 x) =
      stdNormalCDF 0 := by
    rw [stdNormalCDF]
    have h1 : (∫ x in Set.Ioi (0 : ℝ), ProbabilityTheory.gaussianPDFReal 0 1 x) =
        ∫ x in Set.Ioi (0 : ℝ), ProbabilityTheory.gaussianPDFReal 0 1 (-x) :=
      (MeasureTheory.setIntegral_congr_fun measurableSet_Ioi
        (fun x _ => (gaussianPDFReal_even x).symm))
    rw [h1, integral_comp_neg_Ioi, neg_zero]
  rw [hsymm] at hsplit
  linarith

theorem stdNormalCDF_mono {x y : ℝ} (h : x ≤ y) :
    stdNormalCDF x ≤ stdNormalCDF y := by
  unfold stdNormalCDF
  apply MeasureTheory.setIntegral_mono_set
  · exact (ProbabilityTheory.integrable_gaussianPDFReal 0 1).integrableOn
  · exact MeasureTheory.ae_of_all _
      (fun t => ProbabilityTheory.gaussianPDFReal_nonneg 0 1 t)
  · exact HasSubset.Subset.eventuallyLE (Set.Iic_subset_Iic.mpr h)

theorem normPpf_nonneg {p : ℝ} (hp : 1 / 2 < p) : 0 ≤ normPpf p := by
  unfold normPpf
  rcases Set.eq_empty_or_nonempty {x : ℝ | p ≤ stdNormalCDF x} with he | hne
  · rw [he, Real.sInf_empty]
  · apply le_csInf hne
    intro x hx
    by_contra hneg
    push_neg at hneg
    have h1 : stdNormalCDF x ≤ stdNormalCDF 0 := stdNormalCDF_mono (le_of_lt hneg)
    rw [stdNormalCDF_zero] at h1
    have h2 : p ≤ stdNormalCDF x := hx
    linarith

theorem zScore_nonneg {conf : ℝ} (h : 0 < conf) : 0 ≤ zScore conf := by
  unfold zScore
  apply normPpf_nonneg
  linarith

theorem zipWith_getElem? {α β γ : Type} (f : α → β → γ) (l1 : List α)
    (l2 : List β) (i : ℕ) :
    (List.zipWith f l1 l2)[i]? =
      l1[i]?.bind (fun a => l2[i]?.map (fun b => f a b)) := by
  induction l1 generalizing l2 i with
  | nil => simp
  | cons a l1 ih =>
    cases l2 with
    | nil => cases i <;> simp
    | cons b l2 =>
      cases i with
      | zero => simp
      | succ i => simpa using ih l2 i

theorem rollingMean_getElem? (data : List (Option ℚ)) (w mp i : ℕ)
    (h : i < data.length) :
    (rollingMean data w mp)[i]? =
      some (if mp ≤ (windowVals data w i).length then
        some ((windowVals data w i).sum / ((windowVals data w i).length : ℚ))
      else none) := by
  rw [rollingMean, List.getElem?_map, List.getElem?_range h, Option.map_some']

theorem rollingStd_getElem? (data : List (Option ℚ)) (w mp i : ℕ)
    (h : i < data.length) :
    (rollingStd data w mp)[i]? =
      some (if mp ≤ (windowVals data w i).length ∧ 2 ≤ (windowVals data w i).length then
        some (Real.sqrt ((sampleVar (windowVals data w i) : ℚ) : ℝ))
      else none) := by
  rw [rollingStd, List.getElem?_map, List.getElem?_range h, Option.map_some']

theorem marginSeries_getElem? (data : List (Option ℚ)) (w : ℕ) (conf : ℝ) (i : ℕ) :
    (marginSeries data w conf)[i]? =
      ((rollingStd data w (minPeriods w))[i]?).map
        (fun o => o.map (fun sd => zScore conf * (sd / Real.sqrt w))) := by
  rw [marginSeries, List.getElem?_map, List.getElem?_map, Option.map_map]
  cases (rollingStd data w (minPeriods w))[i]? with
  | none => rfl
  | some o =>
    cases o with
    | none => rfl
    | some sd => rfl

theorem rollingStd_value_nonneg {data : List (Option ℚ)} {w mp i : ℕ} {sd : ℝ}
    (h : (rollingStd data w mp)[i]? = some (some sd)) : 0 ≤ sd := by
  rw [rollingStd, List.getElem?_map] at h
  cases hi : (List.range data.length)[i]? with
  | none => rw [hi] at h; exact Option.noConfusion h
  | some j =>
    rw [hi, Option.map_some'] at h
    injection h with h1
    dsimp only at h1
    split at h1
    · injection h1 with h2
      rw [← h2]
      exact Real.sqrt_nonneg _
    · exact Option.noConfusion h1

/-- C3 (confirmed): wherever the smoothed series and the confidence bounds
are all non-missing, `lower ≤ smoothed ≤ upper` — the margin is a
nonnegative multiple (z-score at a positive confidence level times
`1 / sqrt n`) of a rolling standard deviation, which is a square root. -/
theorem C3_band_ordering (data : List (Option ℚ)) (w : ℕ) (conf : ℝ) (i : ℕ)
    (s : ℚ) (l u : ℝ) (hconf : 0 < conf)
    (hs : (smooth_data_with_confidence data w conf).smoothed[i]? = some (some s))
    (hl : (smooth_data_with_confidence data w conf).lower[i]? = some (some l))
    (hu : (smooth_data_with_confidence data w conf).upper[i]? = some (some u)) :
    l ≤ (s : ℝ) ∧ (s : ℝ) ≤ u := by
  have hs' : (rollingMean data w (minPeriods w))[i]? = some (some s) := hs
  have hl' : (List.zipWith (combineOpt (fun x m => x - m))
      (rollingMean data w (minPeriods w)) (marginSeries data w conf))[i]? =
      some (some l) := hl
  have hu' : (List.zipWith (combineOpt (fun x m => x + m))
      (rollingMean data w (minPeriods w)) (marginSeries data w conf))[i]? =
      some (some u) := hu
  rw [zipWith_getElem?] at hl' hu'
  rw [hs', Option.some_bind] at hl' hu'
  cases hmg : (marginSeries data w conf)[i]? with
  | none =>
    rw [hmg] at hl'
    exact Option.noConfusion hl'
  | some b =>
    rw [hmg, Option.map_some'] at hl' hu'
    injection hl' with hl2
    injection hu' with hu2
    cases b with
    | none => exact Option.noConfusion hl2
    | some m =>
      injection hl2 with hl3
      injection hu2 with hu3
      have hm0 : 0 ≤ m := by
        rw [marginSeries_getElem?] at hmg
        cases hstd : (rollingStd data w (minPeriods w))[i]? with
        | none => rw [hstd] at hmg; exact Option.noConfusion hmg
        | some o =>
          rw [hstd, Option.map_some'] at hmg
          injection hmg with hmg1
          cases o with
          | none => exact Option.noConfusion hmg1
          | some sd =>
            injection hmg1 with hmg2
            rw [← hmg2]
            exact mul_nonneg (zScore_nonneg hconf)
              (div_nonneg (rollingStd_value_nonneg hstd) (Real.sqrt_nonneg _))
      constructor
      · rw [← hl3]
        simp only [combineOpt]
        linarith
      · rw [← hu3]
        simp only [combineOpt]
        linarith

/-- C3 (witness): the theorem applied to a constant three-point series,
where the band degenerates to the smoothed value. -/
theorem C3_witness :
    (0 : ℝ) < 0.95 ∧
    (smooth_data_with_confidence [some 1, some 1, some 1] 3 0.95).smoothed[1]? =
      some (some 1) ∧
    (smooth_data_with_confidence [some 1, some 1, some 1] 3 0.95).lower[1]? =
      some (some 1) ∧
    (smooth_data_with_confidence [some 1, some 1, some 1] 3 0.95).upper[1]? =
      some (some 1) ∧
    ((1 : ℝ) ≤ ((1 : ℚ) : ℝ) ∧ ((1 : ℚ) : ℝ) ≤ (1 : ℝ)) := by
  have hwv : windowVals [some 1, some 1, some 1] 3 1 = [1, 1, 1] := by decide
  have hsv : sampleVar ([1, 1, 1] : List ℚ) = 0 := by
    norm_num [sampleVar, List.sum_cons, List.sum_nil]
  have hsr : (rollingMean [some 1, some 1, some 1] 3 (minPeriods 3))[1]? =
      some (some 1) := by
    rw [rollingMean_getElem? _ _ _ _ (by norm_num), hwv]
    norm_num [minPeriods, List.sum_cons, List.sum_nil]
  have hmg : (marginSeries [some 1, some 1, some 1] 3 0.95)[1]? = some (some 0) := by
    rw [marginSeries_getElem?, rollingStd_getElem? _ _ _ _ (by norm_num), hwv]
    norm_num [minPeriods, hsv]
  have hs : (smooth_data_with_confidence [some 1, some 1, some 1] 3 0.95).smoothed[1]? =
      some (some 1) := hsr
  have hl : (smooth_data_with_confidence [some 1, some 1, some 1] 3 0.95).lower[1]? =
      some (some 1) := by
    show (List.zipWith (combineOpt (fun x m => x - m))
      (rollingMean [some 1, some 1, some 1] 3 (minPeriods 3))
      (marginSeries [some 1, some 1, some 1] 3 0.95))[1]? = some (some 1)
    rw [zipWith_getElem?, hsr, Option.some_bind, hmg, Option.map_some']
    norm_num [combineOpt]
  have hu : (smooth_data_with_confidence [some 1, some 1, some 1] 3 0.95).upper[1]? =
      some (some 1) := by
    show (List.zipWith (combineOpt (fun x m => x + m))
      (rollingMean [some 1, some 1, some 1] 3 (minPeriods 3))
      (marginSeries [some 1, some 1, some 1] 3 0.95))[1]? = some (some 1)
    rw [zipWith_getElem?, hsr, Option.some_bind, hmg, Option.map_some']
    norm_num [combineOpt]
  exact ⟨by norm_num, hs, hl, hu,
    C3_band_ordering [some 1, some 1, some 1] 3 0.95 1 1 1 1 (by norm_num) hs hl hu⟩

/-- C10 (confirmed): for a window size at most 3 (so the `min_periods`
threshold `max(1, w // 2)` is 1), at a position whose centered window holds
exactly one non-missing value, the smoothed series is defined (equal to
that value) while both confidence bounds are missing: the sample standard
deviation needs at least two observations, and the margin inherits its
missingness. -/
theorem C10_single_sample (data : List (Option ℚ)) (w : ℕ) (conf : ℝ) (i : ℕ)
    (v : ℚ) (hw1 : 1 ≤ w) (hw3 : w ≤ 3) (hi : i < data.length)
    (hv : windowVals data w i = [v]) :
    (smooth_data_with_confidence data w conf).smoothed[i]? = some (some v) ∧
    (smooth_data_with_confidence data w conf).lower[i]? = some none ∧
    (smooth_data_with_confidence data w conf).upper[i]? = some none := by
  have hmp : minPeriods w = 1 := by
    unfold minPeriods
    omega
  have hsr : (rollingMean data w (minPeriods w))[i]? = some (some v) := by
    rw [rollingMean_getElem? _ _ _ _ hi, hv, hmp]
    norm_num [List.sum_cons, List.sum_nil]
  have hmg : (marginSeries data w conf)[i]? = some none := by
    rw [marginSeries_getElem?, rollingStd_getElem? _ _ _ _ hi, hv, hmp]
    norm_num
  refine ⟨hsr, ?_, ?_⟩
  · show (List.zipWith (combineOpt (fun x m => x - m))
      (rollingMean data w (minPeriods w)) (marginSeries data w conf))[i]? = some none
    rw [zipWith_getElem?, hsr, Option.some_bind, hmg, Option.map_some']
    rfl
  · show (List.zipWith (combineOpt (fun x m => x + m))
      (rollingMean data w (minPeriods w)) (marginSeries data w conf))[i]? = some none
    rw [zipWith_getElem?, hsr, Option.some_bind, hmg, Option.map_some']
    rfl

/-- C10 (witness): the theorem applied to a three-point series carrying a
single non-missing value 5. -/
theorem C10_witness :
    windowVals [some 5, none, none] 3 0 = [5] ∧
    ((smooth_data_with_confidence [some 5, none, none] 3 0.95).smoothed[0]? =
        some (some 5) ∧
      (smooth_data_with_confidence [some 5, none, none] 3 0.95).lower[0]? =
        some none ∧
      (smooth_data_with_confidence [some 5, none, none] 3 0.95).upper[0]? =
        some none) :=
  ⟨by decide, C10_single_sample [some 5, none, none] 3 0.95 0 5 (by norm_num)
    (by norm_num) (by norm_num) (by decide)⟩

theorem windowVals_odd (data : List (Option ℚ)) (w i : ℕ) (hodd : w % 2 = 1) :
    windowVals data w i = specWindowVals data w i := by
  unfold windowVals specWindowVals rollingWindow
  dsimp only
  congr 1
  have hs : i + 1 + (w - 1) / 2 - w = i - w / 2 := by omega
  rw [hs, List.take_eq_take, List.length_drop]
  omega

theorem zipWith_map_same {α β γ δ : Type} (f : β → γ → δ) (g : α → β)
    (h : α → γ) (l : List α) :
    List.zipWith f (l.map g) (l.map h) = l.map (fun a => f (g a) (h a)) := by
  induction l with
  | nil => rfl
  | cons a l ih =>
    rw [List.map_cons, List.map_cons, List.zipWith_cons_cons, ih, List.map_cons]

/-- C2 (amended): for every numeric series, odd window size `w` and
confidence level, the three outputs of `smooth_data_with_confidence` follow
the specification's formulas: the smoothed value at `i` is the mean of the
up-to-`w` values in the window extending `w // 2` to each side of `i`,
defined once at least `max(1, w // 2)` non-missing values lie in the
window; the margin at `i` is `z(confidence)` times the rolling standard
deviation over the same window divided by `sqrt w`; and
`lower = smoothed - margin`, `upper = smoothed + margin`. -/
theorem C2_smoothing_formulas (data : List (Option ℚ)) (w : ℕ) (conf : ℝ)
    (hodd : w % 2 = 1) :
    (smooth_data_with_confidence data w conf).smoothed =
      (List.range data.length).map (specSmoothedAt data w) ∧
    (smooth_data_with_confidence data w conf).lower =
      (List.range data.length).map (specLowerAt data w conf) ∧
    (smooth_data_with_confidence data w conf).upper =
      (List.range data.length).map (specUpperAt data w conf) := by
  have hm : rollingMean data w (minPeriods w) =
      (List.range data.length).map (specSmoothedAt data w) := by
    rw [rollingMean]
    apply List.map_congr_left
    intro i _
    unfold specSmoothedAt
    dsimp only
    rw [windowVals_odd data w i hodd]
    rfl
  have hstd : rollingStd data w (minPeriods w) =
      (List.range data.length).map (specStdAt data w) := by
    rw [rollingStd]
    apply List.map_congr_left
    intro i _
    unfold specStdAt
    dsimp only
    rw [windowVals_odd data w i hodd]
    rfl
  have hmargin : marginSeries data w conf =
      (List.range data.length).map (fun i => (specStdAt data w i).map
        (fun s => zScore conf * (s / Real.sqrt w))) := by
    rw [marginSeries, hstd, List.map_map, List.map_map]
    apply List.map_congr_left
    intro i _
    simp only [Function.comp]
    rw [Option.map_map]
    rfl
  refine ⟨hm, ?_, ?_⟩
  · show List.zipWith (combineOpt (fun x m => x - m))
      (rollingMean data w (minPeriods w)) (marginSeries data w conf) = _
    rw [hm, hmargin, zipWith_map_same]
    rfl
  · show List.zipWith (combineOpt (fun x m => x + m))
      (rollingMean data w (minPeriods w)) (marginSeries data w conf) = _
    rw [hm, hmargin, zipWith_map_same]
    rfl

/-- C2 (counterexample): at the even window size 2, the code's pandas
window is left-heavy (`FixedWindowIndexer` uses `offset = (w-1)//2`), so the
first smoothed value of `[0, 6]` is 0 — the mean over the clipped window
`{0}` — while the claimed symmetric window extending `w // 2 = 1` to each
side would give the mean of `{0, 6}`, namely 3. -/
theorem C2_counterexample :
    (smooth_data_with_confidence [some 0, some 6] 2 0.95).smoothed[0]? =
      some (some 0) ∧
    specSmoothedAt [some 0, some 6] 2 0 = some 3 ∧
    some (0 : ℚ) ≠ some (3 : ℚ) := by
  refine ⟨?_, ?_, by norm_num⟩
  · show (rollingMean [some 0, some 6] 2 (minPeriods 2))[0]? = some (some 0)
    rw [rollingMean_getElem? _ _ _ _ (by norm_num)]
    have hwv : windowVals [some 0, some 6] 2 0 = [0] := by decide
    rw [hwv]
    norm_num [minPeriods, List.sum_cons, List.sum_nil]
  · unfold specSmoothedAt
    have hwv : specWindowVals [some 0, some 6] 2 0 = [0, 6] := by decide
    dsimp only
    rw [hwv]
    norm_num [List.sum_cons, List.sum_nil]

/-- C2 (witness): the amended theorem applied at the odd default-shaped
window size 3. -/
theorem C2_witness :
    (3 : ℕ) % 2 = 1 ∧
    ((smooth_data_with_confidence [some 1, some 2] 3 0.95).smoothed =
      (List.range ([some 1, some 2] : List (Option ℚ)).length).map
        (specSmoothedAt [some 1, some 2] 3) ∧
    (smooth_data_with_confidence [some 1, some 2] 3 0.95).lower =
      (List.range ([some 1, some 2] : List (Option ℚ)).length).map
        (specLowerAt [some 1, some 2] 3 0.95) ∧
    (smooth_data_with_confidence [some 1, some 2] 3 0.95).upper =
      (List.range ([some 1, some 2] : List (Option ℚ)).length).map
        (specUpperAt [some 1, some 2] 3 0.95)) :=
  ⟨by norm_num, C2_smoothing_formulas [some 1, some 2] 3 0.95 (by norm_num)⟩
